import Mathlib

/-!
Verification of the real-time notification core of the Todo_App repository:
the `NotificationScheduler` (src/Phase-2/backend/src/services/notification_scheduler.py),
the message rendering of `PushNotificationService`
(src/Phase-2/backend/src/services/push_notification_service.py), and the
WebSocket `ConnectionManager` (src/Phase-2/backend/src/routes/websocket.py).

Timestamps are modelled as integers: whole seconds for the scheduler's due
dates, microseconds for the heartbeat timestamps (where Python `timedelta`
component arithmetic matters).
-/

namespace Todo

/-! ## Scheduler data model (src/Phase-2/backend/src/models/user.py) -/

/-- Model of a `Task` row: the fields the notification scheduler reads.  `id` is the
integer primary key of a persisted row; `due_date` is nullable. -/
structure Task where
  id : Int
  user_id : String
  title : String
  completed : Bool
  is_deleted : Bool
  due_date : Option Int
deriving DecidableEq

/-- Model of a `Notification` row: the fields the scheduler writes and queries. -/
structure Notification where
  user_id : String
  task_id : Option Int
  type : String
  title : String
  message : String
  is_read : Bool
deriving DecidableEq

/-- Model of a `User` row: the fields `send_email_notification` reads.  The code guards
with `if not user or not user.email`; an empty string models a falsy email. -/
structure User where
  id : String
  email : String
deriving DecidableEq

/-- An outbound email as handed to `EmailService.send_email`. -/
structure EmailMessage where
  to_email : String
  subject : String
  time_msg : String
deriving DecidableEq

/-- The scheduler's database view: the task table and the notification table. -/
structure SchedulerState where
  tasks : List Task
  notifications : List Notification
deriving DecidableEq

/-- The WHERE clause of the due-soon query in
`NotificationScheduler.check_and_send_notifications`: not completed, not
deleted, `due_date` non-null, and
`notification_window_start <= due_date <= notification_window_end` where the
window runs from `now` to `now + timedelta(minutes=15)` — both comparisons in
the code are inclusive (`>=` and `<=`). -/
def dueSoonQuery (now : Int) (t : Task) : Bool :=
  !t.completed && !t.is_deleted &&
    match t.due_date with
    | none => false
    | some d => decide (now ≤ d) && decide (d ≤ now + 15 * 60)

/-- Model of `NotificationScheduler.has_due_notification`: does a notification with
this task id and type `TASK_DUE_SOON` already exist?  (The code's
`scalar_one_or_none` raises on two or more matching rows; in every state this
development reaches at most one row matches.) -/
def has_due_notification (notifs : List Notification) (task_id : Int) : Bool :=
  notifs.any fun n => n.task_id == some task_id && n.type == "TASK_DUE_SOON"

/-- The three-variant message rendering inside
`check_and_send_notifications`. -/
def dueSoonMessage (title : String) (minutes_until_due : Int) : String :=
  if minutes_until_due ≤ 0 then
    "Task \x27" ++ title ++ "\x27 is due now!"
  else if minutes_until_due = 1 then
    "Task \x27" ++ title ++ "\x27 is due in 1 minute!"
  else
    "Task \x27" ++ title ++ "\x27 is due in " ++ toString minutes_until_due ++ " minutes!"

/-- The message selection of `PushNotificationService.send_task_notification`
(the `message` variable; transcribed branch by branch from the source). -/
def send_task_notification_message (task_title : String) (notification_type : String)
    (minutes_until_due : Option Int) : String :=
  if notification_type = "due_soon" then
    match minutes_until_due with
    | some mu =>
      if mu ≤ 0 then "Task \x27" ++ task_title ++ "\x27 is due now!"
      else if mu = 1 then "Task \x27" ++ task_title ++ "\x27 is due in 1 minute!"
      else "Task \x27" ++ task_title ++ "\x27 is due in " ++ toString mu ++ " minutes!"
    | none => "Don\x27t forget about \x27" ++ task_title ++ "\x27"
  else if notification_type = "completed" then
    "Great job! You completed \x27" ++ task_title ++ "\x27"
  else if notification_type = "created" then
    "Task \x27" ++ task_title ++ "\x27 has been added"
  else
    "Task \x27" ++ task_title ++ "\x27 has been updated"

/-- Python computes `minutes_until_due = int(time_until_due.total_seconds() / 60)`.  For the
tasks the query selects, `due_date ≥ now`, where Python's truncation towards
zero coincides with floor division on the non-negative difference. -/
def minutesUntilDue (due now : Int) : Int :=
  Int.ofNat ((due - now).toNat / 60)

/-- The `time_msg` rendering inside `send_email_notification`. -/
def emailTimeMessage (minutes_until_due : Int) : String :=
  if minutes_until_due ≤ 0 then "now"
  else if minutes_until_due = 1 then "in 1 minute"
  else "in " ++ toString minutes_until_due ++ " minutes"

/-- Model of `NotificationScheduler.send_email_notification`: look the user up, give up
when there is no user or no email, otherwise attempt one email.  The whole
body is wrapped in `try/except`, so a failing transport (`emailSendFails`)
only loses that email and never raises to the caller.  Returns the email that
went out, if any. -/
def send_email_notification (users : List User) (t : Task) (minutes_until_due : Int)
    (emailSendFails : Bool) : Option EmailMessage :=
  match users.find? (fun u => u.id == t.user_id) with
  | none => none
  | some u =>
    if u.email = "" then none
    else if emailSendFails then none
    else some { to_email := u.email, subject := "⏰ Task Reminder: " ++ t.title,
                time_msg := emailTimeMessage minutes_until_due }

/-- One pass of the `for task in tasks:` loop body of
`check_and_send_notifications` for a task whose processing does not raise:
skip when `has_due_notification` holds, otherwise append the new notification
(`session.add`) and attempt the email.  (`due_date.getD now` only totalises
the model: the query guarantees `due_date` is non-null for selected tasks.) -/
def processDueTask (now : Int) (users : List User) (emailFails : Int → Bool)
    (acc : List Notification × List EmailMessage) (t : Task) :
    List Notification × List EmailMessage :=
  if has_due_notification acc.1 t.id then acc
  else
    let m := minutesUntilDue (t.due_date.getD now) now
    let n : Notification :=
      { user_id := t.user_id, task_id := some t.id, type := "TASK_DUE_SOON",
        title := "⏰ Task Due Soon", message := dueSoonMessage t.title m,
        is_read := false }
    (acc.1 ++ [n], acc.2 ++ (send_email_notification users t m (emailFails t.id)).toList)

/-- The whole `for task in tasks:` loop.  `bad t.id` models an exception
raised while processing task `t` itself (the idempotency-check query or the
notification construction): the loop body has no per-task handler, so the
exception propagates and the loop is abandoned; emails already sent stay
sent. -/
def tickLoop (now : Int) (users : List User) (emailFails bad : Int → Bool) :
    List Task → List Notification × List EmailMessage →
      Option (List Notification) × List EmailMessage
  | [], acc => (some acc.1, acc.2)
  | t :: ts, acc =>
    if bad t.id then (none, acc.2)
    else tickLoop now users emailFails bad ts (processDueTask now users emailFails acc t)

/-- Model of `NotificationScheduler.check_and_send_notifications`, one tick: select the
due-soon tasks and run the loop over them; on success `session.commit()`
persists the tick's notifications, while a propagated per-task exception
reaches the tick-level `except`, whose `session.rollback()` discards every
notification added in this tick.  Emails are outside the transaction and are
returned as actually sent. -/
def check_and_send_notifications (now : Int) (users : List User)
    (emailFails bad : Int → Bool) (s : SchedulerState) :
    SchedulerState × List EmailMessage :=
  let tasks := s.tasks.filter (dueSoonQuery now)
  match tickLoop now users emailFails bad tasks (s.notifications, []) with
  | (some ns, ems) => ({ s with notifications := ns }, ems)
  | (none, ems) => (s, ems)

/-- Run the scheduler tick once per entry of `nows`, with no per-task
exceptions. -/
def runTicks (users : List User) (emailFails : Int → Bool) (s : SchedulerState) :
    List Int → SchedulerState
  | [] => s
  | now :: rest =>
    runTicks users emailFails
      (check_and_send_notifications now users emailFails (fun _ => false) s).1 rest

/-- Number of stored notifications carrying the idempotency key
(task id, `TASK_DUE_SOON`). -/
def countDue (notifs : List Notification) (task_id : Int) : Nat :=
  (notifs.filter fun n => n.task_id == some task_id && n.type == "TASK_DUE_SOON").length

/-! ## Connection registry (src/Phase-2/backend/src/routes/websocket.py)

Python dictionaries are modelled as association lists with string keys;
`alGet` reads the first entry for a key, `alSet` replaces it in place (or
appends a new entry, as inserting into a dict does), `alErase` deletes it. -/

/-- Python `d.get(k)` / `d[k]` lookup on a dict modelled as an association list. -/
def alGet {β : Type} : List (String × β) → String → Option β
  | [], _ => none
  | (k', v) :: rest, k => if k' = k then some v else alGet rest k

/-- Python `d[k] = v`: replace the entry for `k`, or append a fresh one. -/
def alSet {β : Type} : List (String × β) → String → β → List (String × β)
  | [], k, v => [(k, v)]
  | (k', v') :: rest, k, v =>
    if k' = k then (k', v) :: rest else (k', v') :: alSet rest k v

/-- Python `del d[k]`. -/
def alErase {β : Type} (m : List (String × β)) (k : String) : List (String × β) :=
  m.filter fun p => p.1 != k

/-- Python `k in d`. -/
def alHasKey {β : Type} (m : List (String × β)) (k : String) : Bool :=
  (alGet m k).isSome

/-- Model of `WebSocketConnection`: one live WebSocket with its metadata.  Timestamps
are microseconds.  The mutable counters `message_count` and `is_alive` are
not read by any registry decision and are left out of the model. -/
structure WebSocketConnection where
  user_id : String
  connection_id : String
  client_ip : String
  connected_at : Nat
  last_heartbeat : Nat
deriving DecidableEq

/-- The `.seconds` attribute of a Python `timedelta` of `elapsed_us` microseconds (for a
non-negative difference): the timedelta is normalised to days, seconds and
microseconds, so `.seconds` is the whole-second count modulo 86400 — NOT the
total elapsed seconds. -/
def timedeltaSeconds (elapsed_us : Nat) : Nat :=
  elapsed_us / 1000000 % 86400

/-- Model of `WebSocketConnection.is_stale`:
`(datetime.utcnow() - self.last_heartbeat).seconds > timeout_seconds`,
taking `now` (microseconds) for `datetime.utcnow()`. -/
def WebSocketConnection.is_stale (c : WebSocketConnection) (now : Nat)
    (timeout_seconds : Nat) : Bool :=
  timedeltaSeconds (now - c.last_heartbeat) > timeout_seconds

/-- The `ConnectionManager` state: the two registries plus the metric and
configuration fields set in `__init__`. -/
structure ConnectionManager where
  active_connections : List (String × List WebSocketConnection)
  connection_map : List (String × WebSocketConnection)
  total_connections : Nat
  total_messages_sent : Nat
  total_messages_received : Nat
  connection_errors : Nat
  max_connections_per_user : Nat
  heartbeat_interval : Nat
  stale_connection_timeout : Nat
deriving DecidableEq

/-- Model of `ConnectionManager.__init__`. -/
def ConnectionManager.init : ConnectionManager where
  active_connections := []
  connection_map := []
  total_connections := 0
  total_messages_sent := 0
  total_messages_received := 0
  connection_errors := 0
  max_connections_per_user := 5
  heartbeat_interval := 30
  stale_connection_timeout := 90

/-- Result of `ConnectionManager.connect`: the returned boolean, the close
code issued on the transport (if any), and the state afterwards. -/
structure ConnectResult where
  ok : Bool
  closeCode : Option Nat
  state : ConnectionManager
deriving DecidableEq

/-- Model of `ConnectionManager.connect`.  `active_connections` is a
`defaultdict(list)`, so the capacity check `len(self.active_connections[user_id])`
inserts an empty list for a previously unknown user.  Over capacity: close
the transport with code 1008 (policy violation) and return `False`.
Otherwise `await websocket.accept()` runs; `acceptOk = false` models it
raising, which the `except` handler turns into `connection_errors += 1` and
`return False` — after the defaultdict insertion already happened. -/
def ConnectionManager.connect (m : ConnectionManager)
    (user_id connection_id client_ip : String) (now : Nat) (acceptOk : Bool) :
    ConnectResult :=
  let lst := (alGet m.active_connections user_id).getD []
  let ac0 := if alHasKey m.active_connections user_id then m.active_connections
             else alSet m.active_connections user_id []
  if m.max_connections_per_user ≤ lst.length then
    { ok := false, closeCode := some 1008, state := { m with active_connections := ac0 } }
  else if acceptOk then
    let conn : WebSocketConnection :=
      { user_id := user_id, connection_id := connection_id, client_ip := client_ip,
        connected_at := now, last_heartbeat := now }
    { ok := true, closeCode := none,
      state := { m with
        active_connections := alSet ac0 user_id (lst ++ [conn]),
        connection_map := alSet m.connection_map connection_id conn,
        total_connections := m.total_connections + 1 } }
  else
    { ok := false, closeCode := none,
      state := { m with
        active_connections := ac0,
        connection_errors := m.connection_errors + 1 } }

/-- Model of `ConnectionManager.disconnect`: remove the connection id from
`connection_map`, filter it out of the user's list, and delete the user's key
when the list has become empty.  The Python coroutine has no `return`
statement, so its returned value is `None`, modelled as the first component
`(none : Option Bool)`. -/
def ConnectionManager.disconnect (m : ConnectionManager)
    (user_id connection_id : String) : Option Bool × ConnectionManager :=
  let cm := if alHasKey m.connection_map connection_id
            then alErase m.connection_map connection_id
            else m.connection_map
  let ac :=
    match alGet m.active_connections user_id with
    | none => m.active_connections
    | some lst =>
      let lst' := lst.filter fun c => c.connection_id != connection_id
      if lst'.isEmpty then alErase m.active_connections user_id
      else alSet m.active_connections user_id lst'
  (none, { m with connection_map := cm, active_connections := ac })

/-- The send loop of `ConnectionManager.send_to_user`: walk the user's
connection list, skip the excluded connection id, best-effort-send to the
rest.  `sendFails cid = true` models `websocket.send_json` raising for that
connection.  Returns `sent_count` and `failed_connections` in loop order. -/
def sendLoop (exclude_connection_id : Option String) (sendFails : String → Bool) :
    List WebSocketConnection → Nat × List String
  | [] => (0, [])
  | c :: rest =>
    if exclude_connection_id = some c.connection_id then
      sendLoop exclude_connection_id sendFails rest
    else if sendFails c.connection_id then
      let r := sendLoop exclude_connection_id sendFails rest
      (r.1, c.connection_id :: r.2)
    else
      let r := sendLoop exclude_connection_id sendFails rest
      (r.1 + 1, r.2)

/-- Model of `ConnectionManager.send_to_user`: unknown user sends to nobody; otherwise
run the send loop over the user's list, then — only after the iteration has
finished — `disconnect` each failed connection.  Returns `sent_count`. -/
def ConnectionManager.send_to_user (m : ConnectionManager) (user_id : String)
    (exclude_connection_id : Option String) (sendFails : String → Bool) :
    Nat × ConnectionManager :=
  match alGet m.active_connections user_id with
  | none => (0, m)
  | some conns =>
    let r := sendLoop exclude_connection_id sendFails conns
    let m1 := { m with total_messages_sent := m.total_messages_sent + r.1,
                       connection_errors := m.connection_errors + r.2.length }
    (r.1, r.2.foldl (fun st cid => (st.disconnect user_id cid).2) m1)

/-- Model of `ConnectionManager.update_heartbeat`: look the connection up and stamp
`last_heartbeat`.  Python mutates the shared object, which both maps alias;
the functional model rewrites the connection in both places. -/
def ConnectionManager.update_heartbeat (m : ConnectionManager)
    (connection_id : String) (now : Nat) : ConnectionManager :=
  match alGet m.connection_map connection_id with
  | none => m
  | some c =>
    let c' := { c with last_heartbeat := now }
    { m with
      connection_map := alSet m.connection_map connection_id c',
      active_connections := m.active_connections.map fun p =>
        (p.1, p.2.map fun x => if x.connection_id = connection_id then c' else x) }

/-- One sweep of `_cleanup_stale_connections`: snapshot the stale connection
ids from `connection_map`, then disconnect each (re-reading the map, as the
code does with `self.connection_map.get(connection_id)`). -/
def ConnectionManager.cleanup_sweep (m : ConnectionManager) (now : Nat) :
    ConnectionManager :=
  let stale := (m.connection_map.filter fun p =>
    p.2.is_stale now m.stale_connection_timeout).map Prod.fst
  stale.foldl (fun st cid =>
    match alGet st.connection_map cid with
    | some c => (st.disconnect c.user_id cid).2
    | none => st) m

/-- Model of `ConnectionManager.get_stats` (the fields the claims talk about). -/
def ConnectionManager.total_users_connected (m : ConnectionManager) : Nat :=
  m.active_connections.length

/-- Model of `ConnectionManager.get_total_active_connections`. -/
def ConnectionManager.get_total_active_connections (m : ConnectionManager) : Nat :=
  m.connection_map.length

/-- The states the `ConnectionManager` singleton can reach: every operation
of the class, from the freshly constructed manager.  Connection ids handed to
`connect` are `ws_<uuid4hex>` values generated per attempt and never reused,
so the `connect` step requires the id to be fresh; `disconnect` is invoked by
the endpoint, the sweep and `send_to_user` only with the user the connection
id was registered under (or an id that is gone), which the `disconnect` step
requires. -/
inductive Reachable : ConnectionManager → Prop
  | init : Reachable ConnectionManager.init
  | connect {m} (user_id connection_id client_ip : String) (now : Nat)
      (acceptOk : Bool) (hm : Reachable m)
      (hfresh : alGet m.connection_map connection_id = none) :
      Reachable (m.connect user_id connection_id client_ip now acceptOk).state
  | disconnect {m} (user_id connection_id : String) (hm : Reachable m)
      (hmatch : ∀ c, alGet m.connection_map connection_id = some c →
        c.user_id = user_id) :
      Reachable (m.disconnect user_id connection_id).2
  | send_to_user {m} (user_id : String) (exclude_connection_id : Option String)
      (sendFails : String → Bool) (hm : Reachable m) :
      Reachable (m.send_to_user user_id exclude_connection_id sendFails).2
  | update_heartbeat {m} (connection_id : String) (now : Nat) (hm : Reachable m) :
      Reachable (m.update_heartbeat connection_id now)
  | cleanup_sweep {m} (now : Nat) (hm : Reachable m) :
      Reachable (m.cleanup_sweep now)

/-! ## Association-list lemmas -/

theorem alGet_alSet {β : Type} (m : List (String × β)) (k : String) (v : β)
    (k' : String) : alGet (alSet m k v) k' = if k = k' then some v else alGet m k' := by
  induction m with
  | nil => simp [alSet, alGet]
  | cons p rest ih =>
    obtain ⟨k₀, v₀⟩ := p
    by_cases h₀ : k₀ = k
    · subst h₀
      simp only [alSet, if_pos rfl, alGet]
      by_cases h : k₀ = k' <;> simp [h]
    · simp only [alSet, if_neg h₀, alGet]
      by_cases h : k₀ = k'
      · have hkk : k ≠ k' := fun hk => h₀ (h.trans hk.symm)
        simp [h, hkk]
      · simp [h, ih]

theorem alGet_alErase {β : Type} (m : List (String × β)) (k k' : String) :
    alGet (alErase m k) k' = if k = k' then none else alGet m k' := by
  induction m with
  | nil => by_cases h : k = k' <;> simp [alErase, alGet, h]
  | cons p rest ih =>
    obtain ⟨k₀, v₀⟩ := p
    by_cases h₀ : k₀ = k
    · subst h₀
      by_cases h : k₀ = k' <;> simp_all [alErase, alGet]
    · by_cases h : k₀ = k'
      · subst h
        simp [alErase, alGet, bne_iff_ne, h₀, if_neg (Ne.symm h₀)]
      · simpa [alErase, alGet, bne_iff_ne, h₀, h] using ih

theorem alGet_none_iff {β : Type} (m : List (String × β)) (k : String) :
    alGet m k = none ↔ ∀ p ∈ m, p.1 ≠ k := by
  induction m with
  | nil => simp [alGet]
  | cons p rest ih =>
    obtain ⟨k₀, v₀⟩ := p
    by_cases h : k₀ = k <;> simp [alGet, h, ih]

theorem alGet_mem {β : Type} {m : List (String × β)} {k : String} {v : β}
    (h : alGet m k = some v) : (k, v) ∈ m := by
  induction m with
  | nil => simp [alGet] at h
  | cons p rest ih =>
    obtain ⟨k₀, v₀⟩ := p
    by_cases h₀ : k₀ = k
    · subst h₀
      simp [alGet] at h
      simp [h]
    · simp [alGet, h₀] at h
      exact List.mem_cons_of_mem _ (ih h)

theorem alSet_self {β : Type} {m : List (String × β)} {k : String} {v : β}
    (h : alGet m k = some v) : alSet m k v = m := by
  induction m with
  | nil => simp [alGet] at h
  | cons p rest ih =>
    obtain ⟨k₀, v₀⟩ := p
    by_cases h₀ : k₀ = k
    · subst h₀
      simp [alGet] at h
      simp [alSet, h]
    · simp [alGet, h₀] at h
      simp [alSet, h₀, ih h]

theorem alErase_absent {β : Type} {m : List (String × β)} {k : String}
    (h : alGet m k = none) : alErase m k = m := by
  rw [alGet_none_iff] at h
  unfold alErase
  rw [List.filter_eq_self]
  intro p hp
  simpa [bne_iff_ne] using h p hp

theorem alSet_alSet {β : Type} (m : List (String × β)) (k : String) (v₁ v₂ : β) :
    alSet (alSet m k v₁) k v₂ = alSet m k v₂ := by
  induction m with
  | nil => simp [alSet]
  | cons p rest ih =>
    obtain ⟨k₀, v₀⟩ := p
    by_cases h₀ : k₀ = k <;> simp [alSet, h₀, ih]

theorem mem_alSet {β : Type} {m : List (String × β)} {k : String} {v : β} {p}
    (h : p ∈ alSet m k v) : p = (k, v) ∨ p ∈ m := by
  induction m with
  | nil => simpa [alSet] using h
  | cons q rest ih =>
    obtain ⟨k₀, v₀⟩ := q
    by_cases h₀ : k₀ = k
    · subst h₀
      simp [alSet] at h
      rcases h with h | h
      · exact Or.inl (by simp [h])
      · exact Or.inr (List.mem_cons_of_mem _ h)
    · simp [alSet, h₀] at h
      rcases h with h | h
      · exact Or.inr (by simp [h])
      · rcases ih h with h' | h'
        · exact Or.inl h'
        · exact Or.inr (List.mem_cons_of_mem _ h')

theorem mem_alSet_nodup {β : Type} {m : List (String × β)} {k : String} {v : β} {p}
    (hnd : (m.map Prod.fst).Nodup) (h : p ∈ alSet m k v) :
    p = (k, v) ∨ (p ∈ m ∧ p.1 ≠ k) := by
  induction m with
  | nil => simpa [alSet] using h
  | cons q rest ih =>
    obtain ⟨k₀, v₀⟩ := q
    simp at hnd
    by_cases h₀ : k₀ = k
    · subst h₀
      simp [alSet] at h
      rcases h with h | h
      · exact Or.inl (by simp [h])
      · refine Or.inr ⟨List.mem_cons_of_mem _ h, ?_⟩
        intro hk
        exact hnd.1 p.2 (by simpa [← hk] using h)
    · simp [alSet, h₀] at h
      rcases h with h | h
      · exact Or.inr ⟨by simp [h], by simp [h, h₀]⟩
      · rcases ih hnd.2 h with h' | h'
        · exact Or.inl h'
        · exact Or.inr ⟨List.mem_cons_of_mem _ h'.1, h'.2⟩

theorem mem_alErase {β : Type} {m : List (String × β)} {k : String} {p} :
    p ∈ alErase m k ↔ p ∈ m ∧ p.1 ≠ k := by
  simp [alErase, List.mem_filter, bne_iff_ne]

theorem keys_alSet {β : Type} (m : List (String × β)) (k : String) (v : β) :
    (alSet m k v).map Prod.fst =
      if (alGet m k).isSome then m.map Prod.fst else m.map Prod.fst ++ [k] := by
  induction m with
  | nil => simp [alSet, alGet]
  | cons p rest ih =>
    obtain ⟨k₀, v₀⟩ := p
    by_cases h₀ : k₀ = k
    · subst h₀
      simp [alSet, alGet]
    · simp [alSet, alGet, h₀, ih]
      by_cases h : (alGet rest k).isSome <;> simp [h]

theorem keys_alErase {β : Type} (m : List (String × β)) (k : String) :
    (alErase m k).map Prod.fst = (m.map Prod.fst).filter (fun x => x != k) := by
  induction m with
  | nil => simp [alErase]
  | cons p rest ih =>
    simp only [alErase, List.filter_cons, List.map_cons] at ih ⊢
    by_cases h : p.1 = k <;> simp [h, ih]

theorem alGet_map_snd {β γ : Type} (m : List (String × β)) (g : β → γ) (k : String) :
    alGet (m.map fun p => (p.1, g p.2)) k = (alGet m k).map g := by
  induction m with
  | nil => simp [alGet]
  | cons p rest ih =>
    by_cases h : p.1 = k <;> simp [alGet, h, ih]

/-! ## Scheduler lemmas -/

/-- The row predicate of the idempotency check, shared by
`has_due_notification` and `countDue`. -/
def dueKeyMatch (task_id : Int) (n : Notification) : Bool :=
  n.task_id == some task_id && n.type == "TASK_DUE_SOON"

theorem has_due_eq_any (notifs : List Notification) (tid : Int) :
    has_due_notification notifs tid = notifs.any (dueKeyMatch tid) := rfl

theorem countDue_eq_countP (notifs : List Notification) (tid : Int) :
    countDue notifs tid = notifs.countP (dueKeyMatch tid) := by
  simp only [countDue, List.countP_eq_length_filter]
  rfl

theorem has_due_iff (notifs : List Notification) (tid : Int) :
    has_due_notification notifs tid = true ↔ countDue notifs tid ≠ 0 := by
  rw [has_due_eq_any, countDue_eq_countP]
  induction notifs with
  | nil => simp
  | cons n rest ih =>
    by_cases h : dueKeyMatch tid n = true <;>
      simp [List.any_cons, List.countP_cons, h, ih]

theorem countDue_append_one (notifs : List Notification) (n : Notification) (tid : Int) :
    countDue (notifs ++ [n]) tid =
      countDue notifs tid + (if dueKeyMatch tid n = true then 1 else 0) := by
  rw [countDue_eq_countP, countDue_eq_countP, List.countP_append]
  by_cases h : dueKeyMatch tid n = true <;> simp [List.countP_cons, h]

/-- The notification row the tick builds for a selected task. -/
def mkDueNotification (now : Int) (t : Task) : Notification where
  user_id := t.user_id
  task_id := some t.id
  type := "TASK_DUE_SOON"
  title := "⏰ Task Due Soon"
  message := dueSoonMessage t.title (minutesUntilDue (t.due_date.getD now) now)
  is_read := false

/-- The first component of the loop body depends only on the notification
accumulator, never on the email side. -/
theorem processDueTask_fst (now : Int) (users : List User) (ef : Int → Bool)
    (acc : List Notification × List EmailMessage) (t : Task) :
    (processDueTask now users ef acc t).1 =
      if has_due_notification acc.1 t.id then acc.1
      else acc.1 ++ [mkDueNotification now t] := by
  by_cases h : has_due_notification acc.1 t.id = true <;>
    simp [processDueTask, mkDueNotification, h]

/-- Notifications produced by the loop do not depend on the email side of the
accumulator nor on which emails fail. -/
theorem tickLoop_fst_email (now : Int) (users : List User) (ef ef' bad : Int → Bool)
    (ts : List Task) (acc acc' : List Notification × List EmailMessage)
    (hacc : acc.1 = acc'.1) :
    (tickLoop now users ef bad ts acc).1 =
      (tickLoop now users ef' bad ts acc').1 := by
  induction ts generalizing acc acc' with
  | nil => simpa [tickLoop] using hacc
  | cons t ts ih =>
    by_cases h : bad t.id = true
    · simp [tickLoop, h]
    · simp only [tickLoop, h, Bool.false_eq_true, if_false]
      apply ih
      rw [processDueTask_fst, processDueTask_fst, hacc]

/-- A loop over tasks none of which raises runs exactly as the loop with no
failures at all. -/
theorem tickLoop_all_good (now : Int) (users : List User) (ef bad : Int → Bool)
    (ts : List Task) (acc : List Notification × List EmailMessage)
    (hbad : ∀ t ∈ ts, bad t.id = false) :
    tickLoop now users ef bad ts acc = tickLoop now users ef (fun _ => false) ts acc := by
  induction ts generalizing acc with
  | nil => rfl
  | cons t ts ih =>
    have h := hbad t (by simp)
    simp only [tickLoop, h, Bool.false_eq_true, if_false]
    exact ih _ fun u hu => hbad u (List.mem_cons_of_mem _ hu)

/-- A loop over tasks one of which raises is abandoned: no notification list
is returned (the exception propagates to the tick's `except`). -/
theorem tickLoop_some_bad (now : Int) (users : List User) (ef bad : Int → Bool)
    (ts : List Task) (acc : List Notification × List EmailMessage)
    (hbad : ts.any (fun t => bad t.id) = true) :
    (tickLoop now users ef bad ts acc).1 = none := by
  induction ts generalizing acc with
  | nil => simp at hbad
  | cons t ts ih =>
    by_cases h : bad t.id = true
    · simp [tickLoop, h]
    · simp only [List.any_cons, Bool.or_eq_true] at hbad
      rcases hbad with hbad | hbad
      · exact absurd hbad h
      · simp only [tickLoop, h, Bool.false_eq_true, if_false]
        exact ih _ hbad

theorem dueKeyMatch_mkDueNotification (now : Int) (t : Task) (tid : Int) :
    dueKeyMatch tid (mkDueNotification now t) = (t.id == tid) := by
  by_cases h : t.id = tid <;> simp [dueKeyMatch, mkDueNotification, h]

/-- How one failure-free loop run changes the number of notifications with a
given idempotency key: from zero it creates exactly one when some selected
task carries the id, and from nonzero it creates none. -/
theorem tickLoop_countDue (now : Int) (users : List User) (ef : Int → Bool)
    (ts : List Task) (acc : List Notification × List EmailMessage) (tid : Int) :
    ∃ ns, (tickLoop now users ef (fun _ => false) ts acc).1 = some ns ∧
      countDue ns tid =
        (if countDue acc.1 tid = 0 ∧ ts.any (fun t => t.id == tid) = true then 1
         else countDue acc.1 tid) := by
  induction ts generalizing acc with
  | nil => exact ⟨acc.1, rfl, by simp⟩
  | cons t ts ih =>
    obtain ⟨ns, hns, hc⟩ := ih (processDueTask now users ef acc t)
    have hfst := processDueTask_fst now users ef acc t
    refine ⟨ns, hns, ?_⟩
    rw [hc]
    by_cases H : has_due_notification acc.1 t.id = true
    · rw [if_pos H] at hfst
      rw [hfst]
      by_cases ht : t.id = tid
      · have hk : countDue acc.1 tid ≠ 0 := by
          rw [← has_due_iff]
          exact ht ▸ H
        simp [hk]
      · simp [List.any_cons, ht]
    · rw [if_neg H] at hfst
      rw [hfst, countDue_append_one, dueKeyMatch_mkDueNotification]
      by_cases ht : t.id = tid
      · have hk : countDue acc.1 tid = 0 := by
          by_contra hk
          exact H ((has_due_iff acc.1 t.id).2 (ht ▸ hk))
        simp [hk, ht, List.any_cons]
      · simp [ht, List.any_cons]

/-- A tick never touches the task table. -/
theorem tick_tasks (now : Int) (users : List User) (ef bad : Int → Bool)
    (s : SchedulerState) :
    ((check_and_send_notifications now users ef bad s).1).tasks = s.tasks := by
  unfold check_and_send_notifications
  rcases htl : tickLoop now users ef bad (s.tasks.filter (dueSoonQuery now))
    (s.notifications, []) with ⟨o, ems⟩
  cases o <;> simp [htl]

/-- Tick-level version of `tickLoop_countDue`. -/
theorem tick_countDue (now : Int) (users : List User) (ef : Int → Bool)
    (s : SchedulerState) (tid : Int) :
    countDue ((check_and_send_notifications now users ef (fun _ => false) s).1).notifications tid =
      if countDue s.notifications tid = 0 ∧
          (s.tasks.filter (dueSoonQuery now)).any (fun t => t.id == tid) = true then 1
      else countDue s.notifications tid := by
  obtain ⟨ns, hns, hc⟩ := tickLoop_countDue now users ef
    (s.tasks.filter (dueSoonQuery now)) (s.notifications, []) tid
  unfold check_and_send_notifications
  rcases htl : tickLoop now users ef (fun _ => false) (s.tasks.filter (dueSoonQuery now))
    (s.notifications, []) with ⟨o, ems⟩
  rw [htl] at hns
  simp only at hns
  subst hns
  simpa [htl] using hc

theorem runTicks_le_one (users : List User) (ef : Int → Bool) (s : SchedulerState)
    (tid : Int) (nows : List Int) (h : countDue s.notifications tid ≤ 1) :
    countDue (runTicks users ef s nows).notifications tid ≤ 1 := by
  induction nows generalizing s with
  | nil => exact h
  | cons now rest ih =>
    show countDue (runTicks users ef _ rest).notifications tid ≤ 1
    apply ih
    rw [tick_countDue]
    split
    · exact le_rfl
    · exact h

theorem runTicks_stays_one (users : List User) (ef : Int → Bool) (s : SchedulerState)
    (tid : Int) (nows : List Int) (h : countDue s.notifications tid = 1) :
    countDue (runTicks users ef s nows).notifications tid = 1 := by
  induction nows generalizing s with
  | nil => exact h
  | cons now rest ih =>
    show countDue (runTicks users ef _ rest).notifications tid = 1
    apply ih
    rw [tick_countDue, if_neg]
    · exact h
    · rintro ⟨h0, -⟩
      omega

/-- C1: for any task id and the trigger type TASK_DUE_SOON, starting from a
store with no notification under that idempotency key, running the scheduler
tick any number of times leaves at most one such notification; if every tick
selects the task (it stays inside the due window, uncompleted and undeleted)
and at least one tick runs, exactly one notification exists afterwards, and
any later tick's `has_due_notification` check finds it (so creation is
skipped and no duplicate ever appears). -/
theorem C1_at_most_one_notification (users : List User) (ef : Int → Bool)
    (s : SchedulerState) (tid : Int) (nows : List Int)
    (h0 : countDue s.notifications tid = 0) :
    countDue (runTicks users ef s nows).notifications tid ≤ 1 ∧
    ((∀ now ∈ nows,
        (s.tasks.filter (dueSoonQuery now)).any (fun t => t.id == tid) = true) →
      nows ≠ [] →
      countDue (runTicks users ef s nows).notifications tid = 1) ∧
    (countDue (runTicks users ef s nows).notifications tid = 1 →
      has_due_notification (runTicks users ef s nows).notifications tid = true) := by
  refine ⟨runTicks_le_one users ef s tid nows (by omega), ?_, ?_⟩
  · intro hq hne
    cases nows with
    | nil => exact absurd rfl hne
    | cons now rest =>
      show countDue (runTicks users ef _ rest).notifications tid = 1
      apply runTicks_stays_one
      rw [tick_countDue, if_pos]
      exact ⟨h0, hq now (by simp)⟩
  · intro h1
    rw [has_due_iff]
    omega

/-- C1 witness: one task due in five minutes, two consecutive ticks. -/
theorem C1_witness :
    countDue (runTicks [] (fun _ => false)
      ⟨[⟨1, "u", "T", false, false, some 300⟩], []⟩ [0, 60]).notifications 1 = 1 :=
  (C1_at_most_one_notification [] (fun _ => false)
    ⟨[⟨1, "u", "T", false, false, some 300⟩], []⟩ 1 [0, 60] (by decide)).2.1
    (by decide) (by decide)

/-- Selection as §4.4 of the spec words it, except that the counterexample
forces the upper bound of the window to be closed: not completed, not
deleted, due timestamp present and inside `[now, now + 15min]`. -/
def specDueSelection (now : Int) (t : Task) : Prop :=
  t.completed = false ∧ t.is_deleted = false ∧
    ∃ d, t.due_date = some d ∧ now ≤ d ∧ d ≤ now + 15 * 60

/-- A task due exactly at `now + 15` minutes, for `now = 0`. -/
def edgeTask : Task :=
  { id := 7, user_id := "u1", title := "edge", completed := false,
    is_deleted := false, due_date := some 900 }

/-- C5 counterexample: the claim says a task due exactly at `now + 15min` is
not selected; the code's window test uses `<=` on both ends, so this task is
selected and the tick creates its notification. -/
theorem C5_counterexample :
    dueSoonQuery 0 edgeTask = true ∧
    countDue ((check_and_send_notifications 0 [] (fun _ => false) (fun _ => false)
      ⟨[edgeTask], []⟩).1).notifications 7 = 1 :=
  ⟨by decide, by decide⟩

/-- C5 (amended): a tick selects exactly the tasks that are not completed,
not deleted, have a due timestamp, and whose due timestamp lies inside the
CLOSED window `[now, now + 15 minutes]` — a task due exactly at
`now + 15 minutes` is selected. -/
theorem C5_window_selection (now : Int) (s : SchedulerState) (t : Task) :
    t ∈ s.tasks.filter (dueSoonQuery now) ↔ t ∈ s.tasks ∧ specDueSelection now t := by
  rw [List.mem_filter]
  refine and_congr_right fun _ => ?_
  unfold dueSoonQuery specDueSelection
  cases h : t.due_date <;>
    simp [h, Bool.and_eq_true, Bool.not_eq_true', decide_eq_true_eq, and_assoc]

/-- The two tasks of the C6 counterexample, both inside the window at
`now = 0`. -/
def taskA : Task := ⟨1, "u", "a", false, false, some 60⟩

/-- Second task of the C6 counterexample. -/
def taskB : Task := ⟨2, "u", "b", false, false, some 120⟩

/-- C6 counterexample: with both tasks selected and task 1's processing
raising, task 2 gets no notification in that tick (the tick-level `except`
rolls everything back), although without the failure it would get one. -/
theorem C6_counterexample :
    countDue ((check_and_send_notifications 0 [] (fun _ => false) (fun i => i == 1)
      ⟨[taskA, taskB], []⟩).1).notifications 2 = 0 ∧
    countDue ((check_and_send_notifications 0 [] (fun _ => false) (fun _ => false)
      ⟨[taskA, taskB], []⟩).1).notifications 2 = 1 :=
  ⟨by decide, by decide⟩

/-- C6 (amended): failure isolation in a tick is per tick, not per task —
except for email delivery.  (a) If no selected task's processing raises, the
tick runs as the failure-free tick.  (b) If some selected task's
idempotency check or notification construction raises, the whole tick's
writes are rolled back: no task of that tick keeps a notification.  (c) A
failure inside the email delivery attempt never affects the stored state:
`send_email_notification` catches its own errors. -/
theorem C6_per_tick_failure (now : Int) (users : List User) (ef bad : Int → Bool)
    (s : SchedulerState) :
    ((∀ t ∈ s.tasks.filter (dueSoonQuery now), bad t.id = false) →
      (check_and_send_notifications now users ef bad s).1 =
        (check_and_send_notifications now users ef (fun _ => false) s).1) ∧
    ((s.tasks.filter (dueSoonQuery now)).any (fun t => bad t.id) = true →
      (check_and_send_notifications now users ef bad s).1 = s) ∧
    (∀ ef', (check_and_send_notifications now users ef' bad s).1 =
      (check_and_send_notifications now users ef bad s).1) := by
  refine ⟨?_, ?_, ?_⟩
  · intro hbad
    simp only [check_and_send_notifications]
    rw [tickLoop_all_good now users ef bad _ _ hbad]
  · intro hbad
    have hnone := tickLoop_some_bad now users ef bad
      (s.tasks.filter (dueSoonQuery now)) (s.notifications, []) hbad
    unfold check_and_send_notifications
    rcases htl : tickLoop now users ef bad (s.tasks.filter (dueSoonQuery now))
      (s.notifications, []) with ⟨o, ems⟩
    rw [htl] at hnone
    simp only at hnone
    subst hnone
    simp [htl]
  · intro ef'
    have hfst := tickLoop_fst_email now users ef' ef bad
      (s.tasks.filter (dueSoonQuery now)) (s.notifications, []) (s.notifications, []) rfl
    unfold check_and_send_notifications
    rcases h1 : tickLoop now users ef' bad (s.tasks.filter (dueSoonQuery now))
      (s.notifications, []) with ⟨o1, e1⟩
    rcases h2 : tickLoop now users ef bad (s.tasks.filter (dueSoonQuery now))
      (s.notifications, []) with ⟨o2, e2⟩
    rw [h1, h2] at hfst
    simp only at hfst
    subst hfst
    cases o1 <;> simp [h1, h2]

/-- C6 witness: at the counterexample's inputs, a tick whose selected tasks
all process cleanly equals the failure-free tick, and email transport
failures leave the stored state untouched. -/
theorem C6_witness :
    (check_and_send_notifications 0 [] (fun _ => true) (fun _ => false)
      ⟨[taskA, taskB], []⟩).1 =
      (check_and_send_notifications 0 [] (fun _ => true) (fun _ => false)
        ⟨[taskA, taskB], []⟩).1 ∧
    (check_and_send_notifications 0 [] (fun _ => true) (fun _ => false)
      ⟨[taskA, taskB], []⟩).1 =
      (check_and_send_notifications 0 [] (fun _ => false) (fun _ => false)
        ⟨[taskA, taskB], []⟩).1 :=
  ⟨((C6_per_tick_failure 0 [] (fun _ => true) (fun _ => false)
      ⟨[taskA, taskB], []⟩).1 (by decide)).trans
    ((C6_per_tick_failure 0 [] (fun _ => true) (fun _ => false)
      ⟨[taskA, taskB], []⟩).1 (by decide)).symm,
   (C6_per_tick_failure 0 [] (fun _ => false) (fun _ => false)
      ⟨[taskA, taskB], []⟩).2.2 (fun _ => true)⟩

/-- C9: the rendered due-soon message is a function of the whole number of
minutes until due `m` with exactly three variants: "is due now!" for
`m ≤ 0`, the singular "is due in 1 minute!" for `m = 1`, and the plural
"is due in m minutes!" for `m ≥ 2`; the scheduler's rendering and the push
service's due_soon rendering agree. -/
theorem C9_message_variants (title : String) (m : Int) :
    (m ≤ 0 → dueSoonMessage title m = "Task \x27" ++ title ++ "\x27 is due now!") ∧
    (m = 1 → dueSoonMessage title m = "Task \x27" ++ title ++ "\x27 is due in 1 minute!") ∧
    (2 ≤ m → dueSoonMessage title m =
      "Task \x27" ++ title ++ "\x27 is due in " ++ toString m ++ " minutes!") ∧
    send_task_notification_message title "due_soon" (some m) = dueSoonMessage title m := by
  refine ⟨fun h => ?_, fun h => ?_, fun h => ?_, ?_⟩
  · simp [dueSoonMessage, h]
  · subst h
    norm_num [dueSoonMessage]
  · have h1 : ¬m ≤ 0 := by omega
    have h2 : m ≠ 1 := by omega
    simp [dueSoonMessage, h1, h2]
  · simp [send_task_notification_message, dueSoonMessage]

/-- C9 witness: the plural variant at five minutes. -/
theorem C9_witness :
    dueSoonMessage "Buy milk" 5 = "Task \x27Buy milk\x27 is due in 5 minutes!" :=
  ((C9_message_variants "Buy milk" 5).2.2.1 (by norm_num)).trans (by decide)

/-- The session of the C4 evidence, registered at time 0 (so its last
heartbeat is 0). -/
def staleManager : ConnectionManager :=
  (ConnectionManager.init.connect "u1" "c1" "ip" 0 true).state

/-- C4 (code bug evidence): `is_stale` computes
`(now - last_heartbeat).seconds > timeout`, and a Python timedelta's
`.seconds` wraps modulo 86400 (one day).  A session 91 seconds stale is
evicted, but a session 86430 seconds (one day and 30 seconds) stale is NOT
classified stale — `.seconds` yields 30 — and the cleanup sweep keeps it,
although 86430 > 90. -/
theorem C4_stale_wraparound :
    ((ConnectionManager.init.connect "u1" "c1" "ip" 0 true).state.connection_map =
      staleManager.connection_map) ∧
    (∀ c, alGet staleManager.connection_map "c1" = some c →
      c.last_heartbeat = 0) ∧
    (90 : Nat) < 86430 ∧
    (WebSocketConnection.is_stale ⟨"u1", "c1", "ip", 0, 0⟩ (91 * 1000000) 90 = true) ∧
    (WebSocketConnection.is_stale ⟨"u1", "c1", "ip", 0, 0⟩ (86430 * 1000000) 90 = false) ∧
    alGet (staleManager.cleanup_sweep (86430 * 1000000)).connection_map "c1" =
      some ⟨"u1", "c1", "ip", 0, 0⟩ ∧
    alGet (staleManager.cleanup_sweep (91 * 1000000)).connection_map "c1" = none :=
  ⟨rfl, by decide, by decide, by decide, by decide, by decide, by decide⟩

/-! ## `disconnect` effect lemmas -/

theorem disconnect_map (m : ConnectionManager) (u cid : String) :
    (m.disconnect u cid).2.connection_map = alErase m.connection_map cid := by
  unfold ConnectionManager.disconnect
  by_cases h : alHasKey m.connection_map cid
  · simp [h]
  · have hn : alGet m.connection_map cid = none :=
      Option.not_isSome_iff_eq_none.1 (by simpa [alHasKey] using h)
    simp [h, alErase_absent hn]

theorem disconnect_map_get (m : ConnectionManager) (u cid cid' : String) :
    alGet (m.disconnect u cid).2.connection_map cid' =
      if cid = cid' then none else alGet m.connection_map cid' := by
  rw [disconnect_map, alGet_alErase]

theorem disconnect_ac (m : ConnectionManager) (u cid : String) :
    (m.disconnect u cid).2.active_connections =
      match alGet m.active_connections u with
      | none => m.active_connections
      | some lst =>
        if (lst.filter fun c => c.connection_id != cid).isEmpty
        then alErase m.active_connections u
        else alSet m.active_connections u (lst.filter fun c => c.connection_id != cid) := rfl

theorem disconnect_ac_get_other (m : ConnectionManager) (u cid u' : String)
    (h : u' ≠ u) :
    alGet (m.disconnect u cid).2.active_connections u' =
      alGet m.active_connections u' := by
  rw [disconnect_ac]
  cases halst : alGet m.active_connections u
  · rfl
  · simp only
    split
    · rw [alGet_alErase, if_neg (fun he => h he.symm)]
    · rw [alGet_alSet, if_neg (fun he => h he.symm)]

theorem disconnect_ac_get_self (m : ConnectionManager) (u cid : String) :
    alGet (m.disconnect u cid).2.active_connections u =
      match alGet m.active_connections u with
      | none => none
      | some lst =>
        if (lst.filter fun c => c.connection_id != cid).isEmpty then none
        else some (lst.filter fun c => c.connection_id != cid) := by
  rw [disconnect_ac]
  cases halst : alGet m.active_connections u
  · exact halst
  · simp only
    split
    · rw [alGet_alErase, if_pos rfl]
    · rw [alGet_alSet, if_pos rfl]

/-- Membership in the target user's list after a disconnect. -/
theorem mem_disconnect_ac (m : ConnectionManager) (u cid : String)
    (x : WebSocketConnection) :
    (∃ l, alGet (m.disconnect u cid).2.active_connections u = some l ∧ x ∈ l) ↔
      (∃ l, alGet m.active_connections u = some l ∧ x ∈ l) ∧
        x.connection_id ≠ cid := by
  rw [disconnect_ac_get_self]
  cases halst : alGet m.active_connections u with
  | none => simp
  | some lst =>
    simp only
    by_cases he : (lst.filter fun c => c.connection_id != cid).isEmpty
    · rw [if_pos he]
      rw [List.isEmpty_iff] at he
      simp only [List.filter_eq_nil_iff] at he
      constructor
      · rintro ⟨l, hl, -⟩
        cases hl
      · rintro ⟨⟨l, hl, hx⟩, hne⟩
        cases hl
        exact absurd (by simpa [bne_iff_ne] using hne) (by simpa using he x hx)
    · rw [if_neg he]
      constructor
      · rintro ⟨l, hl, hx⟩
        cases hl
        rw [List.mem_filter, bne_iff_ne] at hx
        exact ⟨⟨lst, rfl, hx.1⟩, hx.2⟩
      · rintro ⟨⟨l, hl, hx⟩, hne⟩
        cases hl
        exact ⟨_, rfl, List.mem_filter.2 ⟨hx, by simpa [bne_iff_ne] using hne⟩⟩

/-- Running `disconnect` on a session id not present anywhere (given the user's
entry, if any, is a non-empty list) leaves the whole state unchanged. -/
theorem disconnect_absent_unchanged (m : ConnectionManager) (u cid : String)
    (h1 : alGet m.connection_map cid = none)
    (h2 : ∀ lst, alGet m.active_connections u = some lst →
      lst ≠ [] ∧ ∀ c ∈ lst, c.connection_id ≠ cid) :
    (m.disconnect u cid).2 = m := by
  unfold ConnectionManager.disconnect
  have hk : alHasKey m.connection_map cid = false := by
    simp [alHasKey, h1]
  cases hac : alGet m.active_connections u with
  | none => simp [hk, hac]
  | some lst =>
    obtain ⟨hne, hid⟩ := h2 lst hac
    have hfilter : lst.filter (fun c => c.connection_id != cid) = lst :=
      List.filter_eq_self.2 fun c hc => by simpa [bne_iff_ne] using hid c hc
    have hemp : lst.isEmpty = false := by simpa using hne
    simp [hk, hac, hfilter, hemp, alSet_self hac]

/-- C8 counterexample: the Python `disconnect` coroutine has no `return`
statement; for an absent session id it returns `None`, not `False` as the
claim states. -/
theorem C8_counterexample :
    (ConnectionManager.init.disconnect "u" "c").1 = none ∧
    (ConnectionManager.init.disconnect "u" "c").1 ≠ some false :=
  ⟨rfl, by decide⟩

/-- C8 (amended): `disconnect` always returns `None` (no boolean); invoked
for a session id absent from the registry — with the user's entry, if any, a
non-empty list without that id — it leaves the state unchanged and does not
raise; it removes a present session from both maps (the connection-id lookup
comes back `none` and the user's list is filtered, the key being dropped
when the list empties); and invoking it twice yields the state of invoking
it once. -/
theorem C8_disconnect_idempotent (m : ConnectionManager) (u cid : String) :
    (m.disconnect u cid).1 = none ∧
    ((alGet m.connection_map cid = none ∧
      (match alGet m.active_connections u with
        | none => True
        | some lst => lst ≠ [] ∧ ∀ c ∈ lst, c.connection_id ≠ cid)) →
      (m.disconnect u cid).2 = m) ∧
    alGet (m.disconnect u cid).2.connection_map cid = none ∧
    (alGet (m.disconnect u cid).2.active_connections u =
      match alGet m.active_connections u with
      | none => none
      | some lst =>
        if (lst.filter fun c => c.connection_id != cid).isEmpty then none
        else some (lst.filter fun c => c.connection_id != cid)) ∧
    ((m.disconnect u cid).2.disconnect u cid).2 = (m.disconnect u cid).2 := by
  refine ⟨rfl, ?_, ?_, disconnect_ac_get_self m u cid, ?_⟩
  · rintro ⟨h1, h2⟩
    refine disconnect_absent_unchanged m u cid h1 fun lst hl => ?_
    rw [hl] at h2
    exact h2
  · rw [disconnect_map_get, if_pos rfl]
  · refine disconnect_absent_unchanged _ u cid ?_ ?_
    · rw [disconnect_map_get, if_pos rfl]
    · intro lst hl
      rw [disconnect_ac_get_self] at hl
      cases hac : alGet m.active_connections u with
      | none => rw [hac] at hl; cases hl
      | some lst0 =>
        rw [hac] at hl
        simp only at hl
        by_cases he : (lst0.filter fun c => c.connection_id != cid).isEmpty
        · rw [if_pos he] at hl
          cases hl
        · rw [if_neg he] at hl
          cases hl
          refine ⟨by simpa using he, fun c hc => ?_⟩
          rw [List.mem_filter, bne_iff_ne] at hc
          exact hc.2

/-- C8 witness: disconnecting an unregistered id from a one-session registry
changes nothing, and twice equals once. -/
theorem C8_witness :
    ((ConnectionManager.init.connect "u" "c1" "ip" 0 true).state.disconnect "u" "c9").2 =
      (ConnectionManager.init.connect "u" "c1" "ip" 0 true).state ∧
    (((ConnectionManager.init.connect "u" "c1" "ip" 0 true).state.disconnect "u" "c1").2.disconnect
        "u" "c1").2 =
      ((ConnectionManager.init.connect "u" "c1" "ip" 0 true).state.disconnect "u" "c1").2 :=
  ⟨(C8_disconnect_idempotent (ConnectionManager.init.connect "u" "c1" "ip" 0 true).state
      "u" "c9").2.1 ⟨by decide, by
        show ([(⟨"u", "c1", "ip", 0, 0⟩ : WebSocketConnection)] ≠ [] ∧
          ∀ c ∈ [(⟨"u", "c1", "ip", 0, 0⟩ : WebSocketConnection)],
            c.connection_id ≠ "c9")
        decide⟩,
   (C8_disconnect_idempotent (ConnectionManager.init.connect "u" "c1" "ip" 0 true).state
      "u" "c1").2.2.2.2⟩

/-! ## Registry coherence invariant -/

/-- Coherence of the two registries: user keys and connection-id keys are
unique, ids inside one user's list are unique, every session object carried
by a user entry is registered in the lookup map under its own id to the very
same object, and every lookup-map entry appears in its owner's list. -/
structure RegistryWF (m : ConnectionManager) : Prop where
  users_nodup : (m.active_connections.map Prod.fst).Nodup
  map_keys_nodup : (m.connection_map.map Prod.fst).Nodup
  map_key : ∀ q ∈ m.connection_map, q.2.connection_id = q.1
  list_user : ∀ p ∈ m.active_connections, ∀ c ∈ p.2, c.user_id = p.1
  ids_nodup : ∀ p ∈ m.active_connections,
    (p.2.map WebSocketConnection.connection_id).Nodup
  list_in_map : ∀ p ∈ m.active_connections, ∀ c ∈ p.2,
    alGet m.connection_map c.connection_id = some c
  map_in_list : ∀ q ∈ m.connection_map,
    ∃ l, alGet m.active_connections q.2.user_id = some l ∧ q.2 ∈ l

theorem alGet_of_mem_nodup {β : Type} {m : List (String × β)}
    (hnd : (m.map Prod.fst).Nodup) {p : String × β} (hp : p ∈ m) :
    alGet m p.1 = some p.2 := by
  induction m with
  | nil => cases hp
  | cons q rest ih =>
    simp only [List.map_cons, List.nodup_cons] at hnd
    rcases List.mem_cons.1 hp with h | h
    · subst h
      simp [alGet]
    · have hne : q.1 ≠ p.1 := fun he => hnd.1 (he ▸ List.mem_map_of_mem Prod.fst h)
      simpa [alGet, hne] using ih hnd.2 h

theorem nodup_concat_of {α : Type} {l : List α} {x : α} (h : l.Nodup) (hx : x ∉ l) :
    (l ++ [x]).Nodup := by
  simp [List.nodup_append, h, List.disjoint_singleton, hx]

/-- The invariant reads only the two maps; metric fields are irrelevant. -/
theorem RegistryWF.of_maps {m m' : ConnectionManager} (hwf : RegistryWF m)
    (hac : m'.active_connections = m.active_connections)
    (hcm : m'.connection_map = m.connection_map) : RegistryWF m' := by
  obtain ⟨h1, h2, h3, h4, h5, h6, h7⟩ := hwf
  exact ⟨hac ▸ h1, hcm ▸ h2, hcm ▸ h3, hac ▸ h4, hac ▸ h5,
    by rw [hac, hcm]; exact h6, by rw [hac, hcm]; exact h7⟩

/-- An id absent from the lookup map is absent from every user list. -/
theorem RegistryWF.not_in_lists {m : ConnectionManager} (hwf : RegistryWF m)
    {cid : String} (hnone : alGet m.connection_map cid = none) :
    ∀ p ∈ m.active_connections, ∀ c ∈ p.2, c.connection_id ≠ cid := by
  intro p hp c hc he
  have := hwf.list_in_map p hp c hc
  rw [he, hnone] at this
  cases this

theorem wf_init : RegistryWF ConnectionManager.init := by
  refine ⟨?_, ?_, ?_, ?_, ?_, ?_, ?_⟩ <;> simp [ConnectionManager.init]

/-- Inserting a fresh connection for user `u` preserves coherence. -/
theorem wf_insert (m : ConnectionManager) (hwf : RegistryWF m) (u cid : String)
    (hfresh : alGet m.connection_map cid = none)
    (conn : WebSocketConnection) (hcid : conn.connection_id = cid)
    (hu : conn.user_id = u) :
    RegistryWF { m with
      active_connections := alSet m.active_connections u
        (((alGet m.active_connections u).getD []) ++ [conn]),
      connection_map := alSet m.connection_map cid conn,
      total_connections := m.total_connections + 1 } := by
  have hfacts : (∀ c ∈ (alGet m.active_connections u).getD [], c.user_id = u) ∧
      (∀ c ∈ (alGet m.active_connections u).getD [],
        alGet m.connection_map c.connection_id = some c) ∧
      (((alGet m.active_connections u).getD []).map
        WebSocketConnection.connection_id).Nodup := by
    cases hgu : alGet m.active_connections u with
    | none => simp
    | some l0 =>
      have hmem := alGet_mem hgu
      exact ⟨fun c hc => hwf.list_user _ hmem c hc,
        fun c hc => hwf.list_in_map _ hmem c hc, hwf.ids_nodup _ hmem⟩
  obtain ⟨hA, hB, hC⟩ := hfacts
  have hD : ∀ c ∈ (alGet m.active_connections u).getD [], c.connection_id ≠ cid := by
    intro c hc he
    have := hB c hc
    rw [he, hfresh] at this
    cases this
  refine ⟨?_, ?_, ?_, ?_, ?_, ?_, ?_⟩
  · show ((alSet m.active_connections u _).map Prod.fst).Nodup
    by_cases hs : (alGet m.active_connections u).isSome = true
    · rw [keys_alSet, if_pos hs]
      exact hwf.users_nodup
    · rw [keys_alSet, if_neg hs]
      have hn : alGet m.active_connections u = none :=
        Option.not_isSome_iff_eq_none.1 hs
      refine nodup_concat_of hwf.users_nodup ?_
      intro hin
      obtain ⟨p, hp, hpu⟩ := List.mem_map.1 hin
      exact ((alGet_none_iff _ _).1 hn p hp) hpu
  · show ((alSet m.connection_map cid conn).map Prod.fst).Nodup
    rw [keys_alSet, if_neg (by simp [hfresh])]
    refine nodup_concat_of hwf.map_keys_nodup ?_
    intro hin
    obtain ⟨p, hp, hpu⟩ := List.mem_map.1 hin
    exact ((alGet_none_iff _ _).1 hfresh p hp) hpu
  · intro q hq
    rcases mem_alSet hq with h | h
    · subst h
      exact hcid
    · exact hwf.map_key q h
  · intro p hp c hc
    rcases mem_alSet hp with h | h
    · subst h
      rcases List.mem_append.1 hc with h' | h'
      · exact hA c h'
      · rw [List.mem_singleton.1 h']
        exact hu
    · exact hwf.list_user p h c hc
  · intro p hp
    rcases mem_alSet hp with h | h
    · subst h
      show ((_ ++ [conn]).map WebSocketConnection.connection_id).Nodup
      rw [List.map_append, List.map_singleton, hcid]
      refine nodup_concat_of hC ?_
      intro hin
      obtain ⟨c, hc, hcc⟩ := List.mem_map.1 hin
      exact hD c hc hcc
    · exact hwf.ids_nodup p h
  · intro p hp c hc
    rcases mem_alSet hp with h | h
    · subst h
      rcases List.mem_append.1 hc with h' | h'
      · rw [alGet_alSet, if_neg (fun he => hD c h' he.symm)]
        exact hB c h'
      · rw [List.mem_singleton.1 h', hcid, alGet_alSet, if_pos rfl]
    · rw [alGet_alSet, if_neg ?hne]
      · exact hwf.list_in_map p h c hc
      case hne =>
        intro he
        have := hwf.list_in_map p h c hc
        rw [← he, hfresh] at this
        cases this
  · intro q hq
    rcases mem_alSet hq with h | h
    · subst h
      refine ⟨(alGet m.active_connections u).getD [] ++ [conn], ?_, by simp⟩
      show alGet (alSet m.active_connections u _) conn.user_id = _
      rw [hu, alGet_alSet, if_pos rfl]
    · obtain ⟨l, hl, hql⟩ := hwf.map_in_list q h
      by_cases hw : u = q.2.user_id
      · rw [← hw] at hl
        refine ⟨(alGet m.active_connections u).getD [] ++ [conn], ?_, ?_⟩
        · show alGet (alSet m.active_connections u _) q.2.user_id = _
          rw [alGet_alSet, if_pos hw]
        · rw [hl]
          exact List.mem_append_left _ hql
      · refine ⟨l, ?_, hql⟩
        show alGet (alSet m.active_connections u _) q.2.user_id = some l
        rw [alGet_alSet, if_neg hw]
        exact hl

/-- The defaultdict lookup in the capacity check (inserting an empty list for
an unknown user) preserves coherence. -/
theorem wf_add_empty_key (m : ConnectionManager) (hwf : RegistryWF m) (u : String) :
    RegistryWF { m with active_connections :=
      (if alHasKey m.active_connections u then m.active_connections
       else alSet m.active_connections u []) } := by
  by_cases hk : alHasKey m.active_connections u = true
  · rw [if_pos hk]
    exact hwf.of_maps rfl rfl
  · rw [if_neg hk]
    have hn : alGet m.active_connections u = none :=
      Option.not_isSome_iff_eq_none.1 (by simpa [alHasKey] using hk)
    refine ⟨?_, hwf.map_keys_nodup, hwf.map_key, ?_, ?_, ?_, ?_⟩
    · show ((alSet m.active_connections u []).map Prod.fst).Nodup
      rw [keys_alSet, if_neg (by simp [hn])]
      refine nodup_concat_of hwf.users_nodup ?_
      intro hin
      obtain ⟨p, hp, hpu⟩ := List.mem_map.1 hin
      exact ((alGet_none_iff _ _).1 hn p hp) hpu
    · intro p hp c hc
      rcases mem_alSet hp with h | h
      · subst h
        cases hc
      · exact hwf.list_user p h c hc
    · intro p hp
      rcases mem_alSet hp with h | h
      · subst h
        simp
      · exact hwf.ids_nodup p h
    · intro p hp c hc
      rcases mem_alSet hp with h | h
      · subst h
        cases hc
      · exact hwf.list_in_map p h c hc
    · intro q hq
      obtain ⟨l, hl, hql⟩ := hwf.map_in_list q hq
      refine ⟨l, ?_, hql⟩
      show alGet (alSet m.active_connections u []) q.2.user_id = some l
      rw [alGet_alSet, if_neg ?hne]
      · exact hl
      case hne =>
        intro hw
        rw [← hw, hn] at hl
        cases hl

/-- The operation `connect` preserves coherence, for a connection id not already
registered (the endpoint generates a fresh uuid per attempt). -/
theorem wf_connect (m : ConnectionManager) (hwf : RegistryWF m)
    (u cid ip : String) (now : Nat) (ok : Bool)
    (hfresh : alGet m.connection_map cid = none) :
    RegistryWF (m.connect u cid ip now ok).state := by
  simp only [ConnectionManager.connect]
  by_cases hcap : m.max_connections_per_user ≤
      ((alGet m.active_connections u).getD []).length
  · rw [if_pos hcap]
    exact wf_add_empty_key m hwf u
  · rw [if_neg hcap]
    cases ok with
    | false =>
      rw [if_neg (by simp)]
      exact (wf_add_empty_key m hwf u).of_maps rfl rfl
    | true =>
      rw [if_pos rfl]
      refine (wf_insert m hwf u cid hfresh ⟨u, cid, ip, now, now⟩ rfl rfl).of_maps ?_ rfl
      show alSet (if alHasKey m.active_connections u then m.active_connections
        else alSet m.active_connections u []) u _ = alSet m.active_connections u _
      by_cases hk : alHasKey m.active_connections u = true
      · rw [if_pos hk]
      · rw [if_neg hk, alSet_alSet]

/-- The operation `disconnect` preserves coherence when called — as every call site does —
with the user the connection id is registered under (or an id that is not
registered at all). -/
theorem wf_disconnect (m : ConnectionManager) (hwf : RegistryWF m) (u cid : String)
    (hmatch : ∀ c, alGet m.connection_map cid = some c → c.user_id = u) :
    RegistryWF (m.disconnect u cid).2 := by
  have hkey : ∀ p ∈ m.active_connections, p.1 ≠ u → ∀ c ∈ p.2,
      c.connection_id ≠ cid := by
    intro p hp hpu c hc he
    have h1 := hwf.list_in_map p hp c hc
    rw [he] at h1
    exact hpu ((hwf.list_user p hp c hc).symm.trans (hmatch c h1))
  refine ⟨?_, ?_, ?_, ?_, ?_, ?_, ?_⟩
  · rw [disconnect_ac]
    cases hgu : alGet m.active_connections u with
    | none => dsimp only; exact hwf.users_nodup
    | some lst =>
      dsimp only
      by_cases he : (lst.filter fun c => c.connection_id != cid).isEmpty = true
      · rw [if_pos he, keys_alErase]
        exact hwf.users_nodup.filter _
      · rw [if_neg he, keys_alSet, if_pos (by simp [hgu])]
        exact hwf.users_nodup
  · rw [disconnect_map, keys_alErase]
    exact hwf.map_keys_nodup.filter _
  · rw [disconnect_map]
    intro q hq
    exact hwf.map_key q (mem_alErase.1 hq).1
  · rw [disconnect_ac]
    cases hgu : alGet m.active_connections u with
    | none => dsimp only; exact hwf.list_user
    | some lst =>
      dsimp only
      by_cases he : (lst.filter fun c => c.connection_id != cid).isEmpty = true
      · rw [if_pos he]
        intro p hp
        exact hwf.list_user p (mem_alErase.1 hp).1
      · rw [if_neg he]
        intro p hp c hc
        rcases mem_alSet hp with h | h
        · subst h
          exact hwf.list_user _ (alGet_mem hgu) c (List.mem_filter.1 hc).1
        · exact hwf.list_user p h c hc
  · rw [disconnect_ac]
    cases hgu : alGet m.active_connections u with
    | none => dsimp only; exact hwf.ids_nodup
    | some lst =>
      dsimp only
      by_cases he : (lst.filter fun c => c.connection_id != cid).isEmpty = true
      · rw [if_pos he]
        intro p hp
        exact hwf.ids_nodup p (mem_alErase.1 hp).1
      · rw [if_neg he]
        intro p hp
        rcases mem_alSet hp with h | h
        · subst h
          exact List.Nodup.sublist ((List.filter_sublist _).map _)
            (hwf.ids_nodup _ (alGet_mem hgu))
        · exact hwf.ids_nodup p h
  · rw [disconnect_ac, disconnect_map]
    cases hgu : alGet m.active_connections u with
    | none =>
      dsimp only
      intro p hp c hc
      have hcne : c.connection_id ≠ cid := by
        by_cases hpu : p.1 = u
        · exfalso
          have := alGet_of_mem_nodup hwf.users_nodup hp
          rw [hpu, hgu] at this
          cases this
        · exact hkey p hp hpu c hc
      rw [alGet_alErase, if_neg (fun h => hcne h.symm)]
      exact hwf.list_in_map p hp c hc
    | some lst =>
      dsimp only
      by_cases he : (lst.filter fun c => c.connection_id != cid).isEmpty = true
      · rw [if_pos he]
        intro p hp c hc
        obtain ⟨hpm, hpu⟩ := mem_alErase.1 hp
        rw [alGet_alErase, if_neg (fun h => hkey p hpm hpu c hc h.symm)]
        exact hwf.list_in_map p hpm c hc
      · rw [if_neg he]
        intro p hp c hc
        rcases mem_alSet_nodup hwf.users_nodup hp with h | ⟨hpm, hpu⟩
        · subst h
          obtain ⟨hcl, hcne⟩ := List.mem_filter.1 hc
          rw [alGet_alErase, if_neg (fun h => (bne_iff_ne.1 hcne) h.symm)]
          exact hwf.list_in_map _ (alGet_mem hgu) c hcl
        · rw [alGet_alErase, if_neg (fun h => hkey p hpm hpu c hc h.symm)]
          exact hwf.list_in_map p hpm c hc
  · rw [disconnect_ac, disconnect_map]
    intro q hq
    obtain ⟨hqm, hqne⟩ := mem_alErase.1 hq
    have hqcid : q.2.connection_id ≠ cid :=
      fun h => hqne ((hwf.map_key q hqm).symm.trans h)
    obtain ⟨l, hl, hql⟩ := hwf.map_in_list q hqm
    by_cases hw : q.2.user_id = u
    · rw [hw] at hl
      cases hgu : alGet m.active_connections u with
      | none =>
        rw [hgu] at hl
        cases hl
      | some lst =>
        dsimp only
        rw [hgu] at hl
        have hll : lst = l := by injection hl
        subst hll
        have hmem : q.2 ∈ lst.filter (fun c => c.connection_id != cid) :=
          List.mem_filter.2 ⟨hql, by simpa [bne_iff_ne] using hqcid⟩
        have hne : (lst.filter fun c => c.connection_id != cid).isEmpty ≠ true := by
          intro hemp
          rw [List.isEmpty_iff] at hemp
          rw [hemp] at hmem
          cases hmem
        rw [if_neg hne]
        refine ⟨_, ?_, hmem⟩
        rw [hw, alGet_alSet, if_pos rfl]
    · cases hgu : alGet m.active_connections u with
      | none => exact ⟨l, hl, hql⟩
      | some lst =>
        dsimp only
        by_cases he : (lst.filter fun c => c.connection_id != cid).isEmpty = true
        · rw [if_pos he]
          refine ⟨l, ?_, hql⟩
          rw [alGet_alErase, if_neg (fun h => hw h.symm)]
          exact hl
        · rw [if_neg he]
          refine ⟨l, ?_, hql⟩
          rw [alGet_alSet, if_neg (fun h => hw h.symm)]
          exact hl

/-- Every id in `failed_connections` is the id of some connection in the
iterated list. -/
theorem sendLoop_failed_sub (ex : Option String) (f : String → Bool)
    (conns : List WebSocketConnection) :
    ∀ cid ∈ (sendLoop ex f conns).2, ∃ c ∈ conns, c.connection_id = cid := by
  induction conns with
  | nil => simp [sendLoop]
  | cons c rest ih =>
    intro cid hcid
    unfold sendLoop at hcid
    by_cases h1 : ex = some c.connection_id
    · rw [if_pos h1] at hcid
      obtain ⟨x, hx, hxid⟩ := ih cid hcid
      exact ⟨x, List.mem_cons_of_mem _ hx, hxid⟩
    · rw [if_neg h1] at hcid
      by_cases h2 : f c.connection_id = true
      · rw [if_pos h2] at hcid
        dsimp only at hcid
        rcases List.mem_cons.1 hcid with h | h
        · exact ⟨c, List.mem_cons_self _ _, h.symm⟩
        · obtain ⟨x, hx, hxid⟩ := ih cid h
          exact ⟨x, List.mem_cons_of_mem _ hx, hxid⟩
      · rw [if_neg h2] at hcid
        dsimp only at hcid
        obtain ⟨x, hx, hxid⟩ := ih cid hcid
        exact ⟨x, List.mem_cons_of_mem _ hx, hxid⟩

/-- Folding `disconnect` for one user over a list of ids that are all
registered under that user (or absent) preserves coherence. -/
theorem wf_fold_disconnect (st : ConnectionManager) (hwf : RegistryWF st)
    (u : String) (S : List String)
    (hS : ∀ cid ∈ S, ∀ c, alGet st.connection_map cid = some c → c.user_id = u) :
    RegistryWF (S.foldl (fun st cid => (st.disconnect u cid).2) st) := by
  induction S generalizing st with
  | nil => exact hwf
  | cons cid S' ih =>
    simp only [List.foldl_cons]
    refine ih _ (wf_disconnect st hwf u cid (hS cid (by simp))) ?_
    intro cid' hcid' c hc
    rw [disconnect_map_get] at hc
    by_cases hcc : cid = cid'
    · rw [if_pos hcc] at hc
      cases hc
    · rw [if_neg hcc] at hc
      exact hS cid' (List.mem_cons_of_mem _ hcid') c hc

theorem wf_send_to_user (m : ConnectionManager) (hwf : RegistryWF m)
    (u : String) (ex : Option String) (fails : String → Bool) :
    RegistryWF (m.send_to_user u ex fails).2 := by
  unfold ConnectionManager.send_to_user
  cases hgu : alGet m.active_connections u with
  | none => exact hwf
  | some conns =>
    dsimp only
    refine wf_fold_disconnect _ ?_ u _ ?_
    · exact hwf.of_maps rfl rfl
    intro cid hcid c hc
    obtain ⟨x, hx, hxid⟩ := sendLoop_failed_sub ex fails conns cid hcid
    have hxm := hwf.list_in_map _ (alGet_mem hgu) x hx
    rw [hxid] at hxm
    have hcm : alGet m.connection_map cid = some c := hc
    rw [hxm] at hcm
    cases hcm
    exact hwf.list_user _ (alGet_mem hgu) c hx

/-- Folding the sweep's lookup-then-disconnect step preserves coherence for
any id list: the user is re-read from the map, so it always matches. -/
theorem wf_fold_sweep (st : ConnectionManager) (hwf : RegistryWF st)
    (S : List String) :
    RegistryWF (S.foldl (fun st cid =>
      match alGet st.connection_map cid with
      | some c => (st.disconnect c.user_id cid).2
      | none => st) st) := by
  induction S generalizing st with
  | nil => exact hwf
  | cons cid S' ih =>
    simp only [List.foldl_cons]
    refine ih _ ?_
    cases hg : alGet st.connection_map cid with
    | none => exact hwf
    | some c =>
      dsimp only
      refine wf_disconnect st hwf c.user_id cid ?_
      intro c' hc'
      rw [hg] at hc'
      cases hc'
      rfl

theorem wf_cleanup_sweep (m : ConnectionManager) (hwf : RegistryWF m) (now : Nat) :
    RegistryWF (m.cleanup_sweep now) :=
  wf_fold_sweep m hwf _

theorem wf_update_heartbeat (m : ConnectionManager) (hwf : RegistryWF m)
    (cid : String) (now : Nat) :
    RegistryWF (m.update_heartbeat cid now) := by
  unfold ConnectionManager.update_heartbeat
  cases hg : alGet m.connection_map cid with
  | none => exact hwf
  | some c =>
    dsimp only
    have hcmem : (cid, c) ∈ m.connection_map := alGet_mem hg
    have hccid : c.connection_id = cid := hwf.map_key _ hcmem
    refine ⟨?_, ?_, ?_, ?_, ?_, ?_, ?_⟩
    · rw [List.map_map]
      exact hwf.users_nodup
    · rw [keys_alSet, if_pos (by simp [hg])]
      exact hwf.map_keys_nodup
    · intro q hq
      rcases mem_alSet hq with h | h
      · subst h
        exact hccid
      · exact hwf.map_key q h
    · intro p' hp' c'' hc''
      obtain ⟨p, hp0, rfl⟩ := List.mem_map.1 hp'
      obtain ⟨x, hx, rfl⟩ := List.mem_map.1 hc''
      by_cases hxc : x.connection_id = cid
      · have hxm := hwf.list_in_map p hp0 x hx
        rw [hxc, hg] at hxm
        cases hxm
        simp only [if_pos hxc]
        exact hwf.list_user p hp0 c hx
      · simp only [if_neg hxc]
        exact hwf.list_user p hp0 x hx
    · intro p' hp'
      obtain ⟨p, hp0, rfl⟩ := List.mem_map.1 hp'
      dsimp only
      rw [List.map_map]
      have hcongr : ∀ x ∈ p.2, ((fun y => WebSocketConnection.connection_id y) ∘ fun x =>
          if x.connection_id = cid then { c with last_heartbeat := now } else x) x =
          WebSocketConnection.connection_id x := by
        intro x hx
        by_cases hxc : x.connection_id = cid
        · simp [Function.comp, hxc, hccid]
        · simp [Function.comp, hxc]
      rw [List.map_congr_left hcongr]
      exact hwf.ids_nodup p hp0
    · intro p' hp' c'' hc''
      obtain ⟨p, hp0, rfl⟩ := List.mem_map.1 hp'
      obtain ⟨x, hx, rfl⟩ := List.mem_map.1 hc''
      dsimp only
      by_cases hxc : x.connection_id = cid
      · rw [if_pos hxc]
        show alGet (alSet m.connection_map cid _) c.connection_id = _
        rw [hccid, alGet_alSet, if_pos rfl]
      · rw [if_neg hxc]
        rw [alGet_alSet, if_neg (fun h => hxc h.symm)]
        exact hwf.list_in_map p hp0 x hx
    · intro q hq
      rcases mem_alSet_nodup hwf.map_keys_nodup hq with h | ⟨hqm, hqne⟩
      · subst h
        obtain ⟨l, hl, hcl⟩ := hwf.map_in_list _ hcmem
        refine ⟨l.map fun x =>
          if x.connection_id = cid then { c with last_heartbeat := now } else x, ?_, ?_⟩
        · show alGet (m.active_connections.map fun p => (p.1, p.2.map fun x =>
            if x.connection_id = cid then { c with last_heartbeat := now } else x))
            c.user_id = _
          rw [alGet_map_snd, hl]
          rfl
        · refine List.mem_map.2 ⟨c, hcl, ?_⟩
          rw [if_pos hccid]
      · obtain ⟨l, hl, hql⟩ := hwf.map_in_list q hqm
        have hqcid : q.2.connection_id ≠ cid :=
          fun h => hqne ((hwf.map_key q hqm).symm.trans h)
        refine ⟨l.map fun x =>
          if x.connection_id = cid then { c with last_heartbeat := now } else x, ?_, ?_⟩
        · show alGet (m.active_connections.map fun p => (p.1, p.2.map fun x =>
            if x.connection_id = cid then { c with last_heartbeat := now } else x))
            q.2.user_id = _
          rw [alGet_map_snd, hl]
          rfl
        · refine List.mem_map.2 ⟨q.2, hql, ?_⟩
          rw [if_neg hqcid]

/-- Every reachable state of the connection manager is coherent. -/
theorem wf_reachable (m : ConnectionManager) (h : Reachable m) : RegistryWF m := by
  induction h with
  | init => exact wf_init
  | connect u cid ip now ok hm hfresh ih => exact wf_connect _ ih u cid ip now ok hfresh
  | disconnect u cid hm hmatch ih => exact wf_disconnect _ ih u cid hmatch
  | send_to_user u ex fails hm ih => exact wf_send_to_user _ ih u ex fails
  | update_heartbeat cid now hm ih => exact wf_update_heartbeat _ ih cid now
  | cleanup_sweep now hm ih => exact wf_cleanup_sweep _ ih now

/-- C7: in every reachable state the two registries agree about membership:
every session in a user's list is registered in the lookup map under its own
id to the very same object and carries that user's id; every lookup-map
entry carries its key as id and appears in its owner's list; and user keys,
lookup keys, and the ids within one user's list are duplicate-free — so each
session is in exactly one user's list and exactly once in the lookup map, or
absent from both. -/
theorem C7_two_maps_agree (m : ConnectionManager) (h : Reachable m) :
    (∀ u l, alGet m.active_connections u = some l → ∀ c ∈ l,
      alGet m.connection_map c.connection_id = some c ∧ c.user_id = u) ∧
    (∀ cid c, alGet m.connection_map cid = some c → c.connection_id = cid ∧
      ∃ l, alGet m.active_connections c.user_id = some l ∧ c ∈ l) ∧
    (∀ p ∈ m.active_connections,
      (p.2.map WebSocketConnection.connection_id).Nodup) ∧
    (m.active_connections.map Prod.fst).Nodup ∧
    (m.connection_map.map Prod.fst).Nodup := by
  have hwf := wf_reachable m h
  refine ⟨?_, ?_, hwf.ids_nodup, hwf.users_nodup, hwf.map_keys_nodup⟩
  · intro u l hl c hc
    exact ⟨hwf.list_in_map _ (alGet_mem hl) c hc, hwf.list_user _ (alGet_mem hl) c hc⟩
  · intro cid c hc
    exact ⟨hwf.map_key _ (alGet_mem hc), hwf.map_in_list _ (alGet_mem hc)⟩

/-- C7 witness: after one connect, the session is found under its id and in
its user's list. -/
theorem C7_witness :
    alGet (ConnectionManager.init.connect "u" "c" "ip" 0 true).state.connection_map "c" =
      some ⟨"u", "c", "ip", 0, 0⟩ ∧
    ∃ l, alGet (ConnectionManager.init.connect "u" "c" "ip" 0 true).state.active_connections
      "u" = some l ∧ (⟨"u", "c", "ip", 0, 0⟩ : WebSocketConnection) ∈ l := by
  have h := (C7_two_maps_agree _
    (Reachable.connect "u" "c" "ip" 0 true Reachable.init rfl)).2.1
    "c" ⟨"u", "c", "ip", 0, 0⟩ (by decide)
  exact ⟨by decide, h.2⟩

/-! ## Per-user capacity invariant -/

/-- The capacity invariant of C2: the configured cap is 5 and no user's list
is ever longer. -/
def capOK (m : ConnectionManager) : Prop :=
  m.max_connections_per_user = 5 ∧
  ∀ u l, alGet m.active_connections u = some l → l.length ≤ 5

theorem capOK_connect (m : ConnectionManager) (h : capOK m)
    (u cid ip : String) (now : Nat) (ok : Bool) :
    capOK (m.connect u cid ip now ok).state := by
  obtain ⟨hmax, hcap⟩ := h
  simp only [ConnectionManager.connect]
  have hac0 : ∀ u' l, alGet (if alHasKey m.active_connections u then
      m.active_connections else alSet m.active_connections u []) u' = some l →
      l.length ≤ 5 := by
    intro u' l hl
    by_cases hk : alHasKey m.active_connections u = true
    · rw [if_pos hk] at hl
      exact hcap u' l hl
    · rw [if_neg hk, alGet_alSet] at hl
      by_cases hu : u = u'
      · rw [if_pos hu] at hl
        cases hl
        simp
      · rw [if_neg hu] at hl
        exact hcap u' l hl
  by_cases hc : m.max_connections_per_user ≤
      ((alGet m.active_connections u).getD []).length
  · rw [if_pos hc]
    exact ⟨hmax, hac0⟩
  · rw [if_neg hc]
    cases ok with
    | false =>
      rw [if_neg (by simp)]
      exact ⟨hmax, hac0⟩
    | true =>
      rw [if_pos rfl]
      refine ⟨hmax, ?_⟩
      intro u' l hl
      have hset : alSet (if alHasKey m.active_connections u then m.active_connections
          else alSet m.active_connections u []) u
          (((alGet m.active_connections u).getD []) ++ [⟨u, cid, ip, now, now⟩]) =
          alSet m.active_connections u
          (((alGet m.active_connections u).getD []) ++ [⟨u, cid, ip, now, now⟩]) := by
        by_cases hk : alHasKey m.active_connections u = true
        · rw [if_pos hk]
        · rw [if_neg hk, alSet_alSet]
      rw [hset, alGet_alSet] at hl
      by_cases hu : u = u'
      · rw [if_pos hu] at hl
        cases hl
        rw [hmax] at hc
        simp only [List.length_append, List.length_singleton]
        omega
      · rw [if_neg hu] at hl
        exact hcap u' l hl

theorem capOK_disconnect (m : ConnectionManager) (h : capOK m) (u cid : String) :
    capOK (m.disconnect u cid).2 := by
  obtain ⟨hmax, hcap⟩ := h
  refine ⟨hmax, ?_⟩
  intro u' l hl
  rw [disconnect_ac] at hl
  cases hgu : alGet m.active_connections u with
  | none =>
    rw [hgu] at hl
    exact hcap u' l hl
  | some lst =>
    rw [hgu] at hl
    dsimp only at hl
    by_cases he : (lst.filter fun c => c.connection_id != cid).isEmpty = true
    · rw [if_pos he, alGet_alErase] at hl
      by_cases hu : u = u'
      · rw [if_pos hu] at hl
        cases hl
      · rw [if_neg hu] at hl
        exact hcap u' l hl
    · rw [if_neg he, alGet_alSet] at hl
      by_cases hu : u = u'
      · rw [if_pos hu] at hl
        cases hl
        exact le_trans (List.length_filter_le _ _) (hcap u lst hgu)
      · rw [if_neg hu] at hl
        exact hcap u' l hl

theorem capOK_fold_disconnect (st : ConnectionManager) (h : capOK st) (u : String)
    (S : List String) :
    capOK (S.foldl (fun st cid => (st.disconnect u cid).2) st) := by
  induction S generalizing st with
  | nil => exact h
  | cons cid S' ih =>
    simp only [List.foldl_cons]
    exact ih _ (capOK_disconnect st h u cid)

theorem capOK_send_to_user (m : ConnectionManager) (h : capOK m)
    (u : String) (ex : Option String) (fails : String → Bool) :
    capOK (m.send_to_user u ex fails).2 := by
  unfold ConnectionManager.send_to_user
  cases hgu : alGet m.active_connections u with
  | none => exact h
  | some conns =>
    dsimp only
    refine capOK_fold_disconnect _ ?_ u _
    exact ⟨h.1, h.2⟩

theorem capOK_fold_sweep (st : ConnectionManager) (h : capOK st) (S : List String) :
    capOK (S.foldl (fun st cid =>
      match alGet st.connection_map cid with
      | some c => (st.disconnect c.user_id cid).2
      | none => st) st) := by
  induction S generalizing st with
  | nil => exact h
  | cons cid S' ih =>
    simp only [List.foldl_cons]
    refine ih _ ?_
    cases hg : alGet st.connection_map cid with
    | none => exact h
    | some c =>
      dsimp only
      exact capOK_disconnect st h c.user_id cid

theorem capOK_update_heartbeat (m : ConnectionManager) (h : capOK m)
    (cid : String) (now : Nat) :
    capOK (m.update_heartbeat cid now) := by
  unfold ConnectionManager.update_heartbeat
  cases hg : alGet m.connection_map cid with
  | none => exact h
  | some c =>
    dsimp only
    refine ⟨h.1, ?_⟩
    intro u' l hl
    rw [alGet_map_snd] at hl
    rw [Option.map_eq_some'] at hl
    obtain ⟨l0, hl0, rfl⟩ := hl
    rw [List.length_map]
    exact h.2 u' l0 hl0

theorem capOK_reachable (m : ConnectionManager) (h : Reachable m) : capOK m := by
  induction h with
  | init => exact ⟨rfl, by intro u l hl; cases hl⟩
  | connect u cid ip now ok hm hfresh ih => exact capOK_connect _ ih u cid ip now ok
  | disconnect u cid hm hmatch ih => exact capOK_disconnect _ ih u cid
  | send_to_user u ex fails hm ih => exact capOK_send_to_user _ ih u ex fails
  | update_heartbeat cid now hm ih => exact capOK_update_heartbeat _ ih cid now
  | cleanup_sweep now hm ih => exact capOK_fold_sweep _ ih _

/-- C2: in every reachable state the configured cap is 5 and no user ever
holds more than 5 registered sessions; a `connect` arriving while the user
already holds 5 is rejected: the transport is closed with the
policy-violation code 1008, `connect` returns `False`, and the state —
both maps included — is left exactly as it was (nothing inserted, nothing
evicted or replaced). -/
theorem C2_capacity (m : ConnectionManager) (hr : Reachable m) :
    m.max_connections_per_user = 5 ∧
    (∀ u l, alGet m.active_connections u = some l → l.length ≤ 5) ∧
    (∀ u cid ip now acceptOk l, alGet m.active_connections u = some l →
      l.length = 5 →
      (m.connect u cid ip now acceptOk).ok = false ∧
      (m.connect u cid ip now acceptOk).closeCode = some 1008 ∧
      (m.connect u cid ip now acceptOk).state = m) := by
  obtain ⟨hmax, hcap⟩ := capOK_reachable m hr
  refine ⟨hmax, hcap, ?_⟩
  intro u cid ip now acceptOk l hl h5
  have hk : alHasKey m.active_connections u = true := by
    simp [alHasKey, hl]
  have hcnd : m.max_connections_per_user ≤
      ((alGet m.active_connections u).getD []).length := by
    rw [hl, hmax]
    simp [h5]
  have hconn : m.connect u cid ip now acceptOk =
      { ok := false, closeCode := some 1008,
        state := { m with active_connections := m.active_connections } } := by
    simp only [ConnectionManager.connect, if_pos hcnd, if_pos hk]
  rw [hconn]
  exact ⟨rfl, rfl, rfl⟩

/-- A user with five registered sessions, reachable from the fresh manager. -/
def cap5 : ConnectionManager :=
  (((((ConnectionManager.init.connect "u" "c1" "ip" 0 true).state.connect
    "u" "c2" "ip" 0 true).state.connect "u" "c3" "ip" 0 true).state.connect
    "u" "c4" "ip" 0 true).state.connect "u" "c5" "ip" 0 true).state

theorem cap5_reachable : Reachable cap5 :=
  Reachable.connect "u" "c5" "ip" 0 true
    (Reachable.connect "u" "c4" "ip" 0 true
      (Reachable.connect "u" "c3" "ip" 0 true
        (Reachable.connect "u" "c2" "ip" 0 true
          (Reachable.connect "u" "c1" "ip" 0 true Reachable.init rfl)
          (by decide)) (by decide)) (by decide)) (by decide)

/-- C2 witness: the sixth registration for the full user is rejected with
close code 1008 and the state is untouched. -/
theorem C2_witness :
    (cap5.connect "u" "c6" "ip" 7 true).ok = false ∧
    (cap5.connect "u" "c6" "ip" 7 true).closeCode = some 1008 ∧
    (cap5.connect "u" "c6" "ip" 7 true).state = cap5 :=
  (C2_capacity cap5 cap5_reachable).2.2 "u" "c6" "ip" 7 true
    ((alGet cap5.active_connections "u").getD []) (by decide) (by decide)

/-! ## SendToUser under partial failure -/

/-- Loop characterisation: successes are counted over the healthy
non-excluded connections, failures collected over the broken non-excluded
ones, in order. -/
theorem sendLoop_spec (ex : Option String) (f : String → Bool)
    (conns : List WebSocketConnection) :
    (sendLoop ex f conns).1 =
      (conns.filter fun c => !(ex == some c.connection_id) && !f c.connection_id).length ∧
    (sendLoop ex f conns).2 =
      (conns.filter fun c => !(ex == some c.connection_id) && f c.connection_id).map
        WebSocketConnection.connection_id := by
  induction conns with
  | nil => exact ⟨rfl, rfl⟩
  | cons c rest ih =>
    unfold sendLoop
    by_cases h1 : ex = some c.connection_id
    · rw [if_pos h1]
      have hb : (ex == some c.connection_id) = true := by simp [h1]
      simp [List.filter_cons, hb, ih.1, ih.2]
    · rw [if_neg h1]
      have hb : (ex == some c.connection_id) = false := by
        simpa [beq_eq_false_iff_ne] using h1
      by_cases h2 : f c.connection_id = true
      · rw [if_pos h2]
        simp [List.filter_cons, hb, h2, ih.1, ih.2]
      · rw [if_neg h2]
        have h2f : f c.connection_id = false := by
          simpa using h2
        simp [List.filter_cons, hb, h2f, ih.1, ih.2]

/-- After folding `disconnect` over a set of ids, exactly those ids are gone
from the lookup map. -/
theorem fold_disc_map_get (S : List String) (st : ConnectionManager)
    (u cid' : String) :
    alGet ((S.foldl (fun st cid => (st.disconnect u cid).2) st).connection_map) cid' =
      if cid' ∈ S then none else alGet st.connection_map cid' := by
  induction S generalizing st with
  | nil => simp
  | cons c S' ih =>
    simp only [List.foldl_cons]
    rw [ih]
    by_cases hmem : cid' ∈ S'
    · rw [if_pos hmem, if_pos (List.mem_cons_of_mem _ hmem)]
    · rw [if_neg hmem, disconnect_map_get]
      by_cases hc : c = cid'
      · rw [if_pos hc, if_pos (by simp [hc])]
      · rw [if_neg hc, if_neg ?hn]
        case hn =>
          simp only [List.mem_cons, not_or]
          exact ⟨fun h => hc h.symm, hmem⟩

/-- Other users' lists are untouched by the disconnect fold. -/
theorem fold_disc_ac_other (S : List String) (st : ConnectionManager)
    (u u' : String) (h : u' ≠ u) :
    alGet ((S.foldl (fun st cid => (st.disconnect u cid).2) st).active_connections) u' =
      alGet st.active_connections u' := by
  induction S generalizing st with
  | nil => rfl
  | cons c S' ih =>
    simp only [List.foldl_cons]
    rw [ih, disconnect_ac_get_other _ _ _ _ h]

/-- A connection remains in the target user's list after the fold exactly
when it was there before and its id is not among the folded ids. -/
theorem fold_disc_ac_self_mem (S : List String) (st : ConnectionManager)
    (u : String) (x : WebSocketConnection) :
    (∃ l, alGet ((S.foldl (fun st cid =>
        (st.disconnect u cid).2) st).active_connections) u = some l ∧ x ∈ l) ↔
      (∃ l, alGet st.active_connections u = some l ∧ x ∈ l) ∧
        ¬x.connection_id ∈ S := by
  induction S generalizing st with
  | nil => simp
  | cons c S' ih =>
    simp only [List.foldl_cons]
    rw [ih, mem_disconnect_ac]
    constructor
    · rintro ⟨⟨hmem, hne⟩, hnotin⟩
      exact ⟨hmem, by simp [hne, hnotin]⟩
    · rintro ⟨hmem, hnotin⟩
      simp only [List.mem_cons, not_or] at hnotin
      exact ⟨⟨hmem, hnotin.1⟩, hnotin.2⟩

/-- C3: for a user whose registered sessions are `conns`, `send_to_user`
reaches every healthy non-excluded session (the returned count), and —
only after the whole iteration — unregisters exactly the sessions whose
send failed: those leave both maps, every healthy or excluded session stays
registered in both maps, and other users' entries are untouched.  One broken
session therefore never prevents delivery to the remaining healthy ones. -/
theorem C3_send_partial_failure (m : ConnectionManager) (hr : Reachable m)
    (u : String) (ex : Option String) (fails : String → Bool)
    (conns : List WebSocketConnection)
    (hconns : alGet m.active_connections u = some conns) :
    (m.send_to_user u ex fails).1 =
      (conns.filter fun c => !(ex == some c.connection_id) && !fails c.connection_id).length ∧
    (∀ c ∈ conns, ex ≠ some c.connection_id → fails c.connection_id = true →
      alGet (m.send_to_user u ex fails).2.connection_map c.connection_id = none ∧
      ¬∃ l, alGet (m.send_to_user u ex fails).2.active_connections u = some l ∧ c ∈ l) ∧
    (∀ c ∈ conns, fails c.connection_id = false ∨ ex = some c.connection_id →
      alGet (m.send_to_user u ex fails).2.connection_map c.connection_id = some c ∧
      ∃ l, alGet (m.send_to_user u ex fails).2.active_connections u = some l ∧ c ∈ l) ∧
    (∀ u', u' ≠ u →
      alGet (m.send_to_user u ex fails).2.active_connections u' =
        alGet m.active_connections u') := by
  have hwf := wf_reachable m hr
  have hmem : (u, conns) ∈ m.active_connections := alGet_mem hconns
  obtain ⟨hcount, hfailed⟩ := sendLoop_spec ex fails conns
  have h1 : (m.send_to_user u ex fails).1 = (sendLoop ex fails conns).1 := by
    unfold ConnectionManager.send_to_user
    rw [hconns]
  have h2 : (m.send_to_user u ex fails).2 = (sendLoop ex fails conns).2.foldl
      (fun st cid => (st.disconnect u cid).2)
      { m with total_messages_sent := m.total_messages_sent + (sendLoop ex fails conns).1,
               connection_errors :=
                 m.connection_errors + (sendLoop ex fails conns).2.length } := by
    unfold ConnectionManager.send_to_user
    rw [hconns]
  refine ⟨by rw [h1, hcount], ?_, ?_, ?_⟩
  · intro c hc hex hfail
    have hcmem : c.connection_id ∈ (sendLoop ex fails conns).2 := by
      rw [hfailed]
      refine List.mem_map_of_mem _ (List.mem_filter.2 ⟨hc, ?_⟩)
      simp [beq_eq_false_iff_ne, hex, hfail]
    constructor
    · rw [h2, fold_disc_map_get, if_pos hcmem]
    · rw [h2]
      intro hex2
      exact absurd hcmem ((fold_disc_ac_self_mem _ _ u c).1 hex2).2
  · intro c hc hcase
    have hnot : ¬c.connection_id ∈ (sendLoop ex fails conns).2 := by
      rw [hfailed]
      intro hin
      obtain ⟨y, hy, hyid⟩ := List.mem_map.1 hin
      obtain ⟨hy1, hy2⟩ := List.mem_filter.1 hy
      have hyc : y = c :=
        List.inj_on_of_nodup_map (hwf.ids_nodup _ hmem) hy1 hc hyid
      subst hyc
      rcases hcase with hcase | hcase
      · rw [hcase] at hy2
        simp at hy2
      · rw [hcase] at hy2
        simp at hy2
    constructor
    · rw [h2, fold_disc_map_get, if_neg hnot]
      exact hwf.list_in_map _ hmem c hc
    · rw [h2]
      exact (fold_disc_ac_self_mem _ _ u c).2 ⟨⟨conns, hconns, hc⟩, hnot⟩
  · intro u' hu'
    rw [h2, fold_disc_ac_other _ _ _ _ hu']

/-- Three registered sessions for one user, reachable from the fresh
manager. -/
def m3 : ConnectionManager :=
  (((ConnectionManager.init.connect "u" "c1" "ip" 0 true).state.connect
    "u" "c2" "ip" 0 true).state.connect "u" "c3" "ip" 0 true).state

theorem m3_reachable : Reachable m3 :=
  Reachable.connect "u" "c3" "ip" 0 true
    (Reachable.connect "u" "c2" "ip" 0 true
      (Reachable.connect "u" "c1" "ip" 0 true Reachable.init rfl)
      (by decide)) (by decide)

/-- C3 witness: with c2 broken, both healthy sessions are reached, c2 is
unregistered, c1 stays registered. -/
theorem C3_witness :
    (m3.send_to_user "u" none (fun cid => cid == "c2")).1 = 2 ∧
    alGet (m3.send_to_user "u" none (fun cid => cid == "c2")).2.connection_map "c2" = none ∧
    alGet (m3.send_to_user "u" none (fun cid => cid == "c2")).2.connection_map "c1" =
      some ⟨"u", "c1", "ip", 0, 0⟩ := by
  have h := C3_send_partial_failure m3 m3_reachable "u" none (fun cid => cid == "c2")
    ((alGet m3.active_connections "u").getD []) (by decide)
  refine ⟨h.1.trans (by decide), ?_, ?_⟩
  · exact (h.2.1 ⟨"u", "c2", "ip", 0, 0⟩ (by decide) (by decide) (by decide)).1
  · exact (h.2.2.1 ⟨"u", "c1", "ip", 0, 0⟩ (by decide) (Or.inl (by decide))).1



/-! ## User keys hold at least one session (C10) -/

/-- Reachability when every `websocket.accept()` succeeds: the same
operations as `Reachable`, with `connect` always running `acceptOk = true`
(and no freshness or matching side conditions, which this invariant does not
need). -/
inductive ReachableOk : ConnectionManager → Prop
  | init : ReachableOk ConnectionManager.init
  | connect {m} (user_id connection_id client_ip : String) (now : Nat)
      (hm : ReachableOk m) :
      ReachableOk (m.connect user_id connection_id client_ip now true).state
  | disconnect {m} (user_id connection_id : String) (hm : ReachableOk m) :
      ReachableOk (m.disconnect user_id connection_id).2
  | send_to_user {m} (user_id : String) (exclude_connection_id : Option String)
      (sendFails : String → Bool) (hm : ReachableOk m) :
      ReachableOk (m.send_to_user user_id exclude_connection_id sendFails).2
  | update_heartbeat {m} (connection_id : String) (now : Nat) (hm : ReachableOk m) :
      ReachableOk (m.update_heartbeat connection_id now)
  | cleanup_sweep {m} (now : Nat) (hm : ReachableOk m) :
      ReachableOk (m.cleanup_sweep now)

/-- Invariant backing C10: cap is 5, user keys are unique, and every user
entry holds a non-empty list. -/
def usersNonempty (m : ConnectionManager) : Prop :=
  m.max_connections_per_user = 5 ∧
  (m.active_connections.map Prod.fst).Nodup ∧
  ∀ p ∈ m.active_connections, p.2 ≠ []

theorem usersNonempty_connect (m : ConnectionManager) (h : usersNonempty m)
    (u cid ip : String) (now : Nat) :
    usersNonempty (m.connect u cid ip now true).state := by
  obtain ⟨hmax, hnd, hne⟩ := h
  simp only [ConnectionManager.connect]
  by_cases hc : m.max_connections_per_user ≤
      ((alGet m.active_connections u).getD []).length
  · rw [if_pos hc]
    by_cases hk : alHasKey m.active_connections u = true
    · rw [if_pos hk]
      exact ⟨hmax, hnd, hne⟩
    · exfalso
      have hn : alGet m.active_connections u = none :=
        Option.not_isSome_iff_eq_none.1 (by simpa [alHasKey] using hk)
      rw [hn, hmax] at hc
      simp at hc
  · rw [if_neg hc, if_pos trivial]
    have hset : alSet (if alHasKey m.active_connections u then m.active_connections
        else alSet m.active_connections u []) u
        (((alGet m.active_connections u).getD []) ++ [⟨u, cid, ip, now, now⟩]) =
        alSet m.active_connections u
        (((alGet m.active_connections u).getD []) ++ [⟨u, cid, ip, now, now⟩]) := by
      by_cases hk : alHasKey m.active_connections u = true
      · rw [if_pos hk]
      · rw [if_neg hk, alSet_alSet]
    refine ⟨hmax, ?_, ?_⟩
    · show ((alSet _ u _).map Prod.fst).Nodup
      rw [hset]
      by_cases hs : (alGet m.active_connections u).isSome = true
      · rw [keys_alSet, if_pos hs]
        exact hnd
      · rw [keys_alSet, if_neg hs]
        have hn : alGet m.active_connections u = none :=
          Option.not_isSome_iff_eq_none.1 hs
        refine nodup_concat_of hnd ?_
        intro hin
        obtain ⟨p, hp, hpu⟩ := List.mem_map.1 hin
        exact ((alGet_none_iff _ _).1 hn p hp) hpu
    · intro p hp
      rw [hset] at hp
      rcases mem_alSet_nodup hnd hp with h0 | h0
      · rw [h0]
        simp
      · exact hne p h0.1

theorem usersNonempty_disconnect (m : ConnectionManager) (h : usersNonempty m)
    (u cid : String) : usersNonempty (m.disconnect u cid).2 := by
  obtain ⟨hmax, hnd, hne⟩ := h
  refine ⟨hmax, ?_, ?_⟩
  · rw [disconnect_ac]
    cases hgu : alGet m.active_connections u with
    | none => exact hnd
    | some lst =>
      dsimp only
      by_cases he : (lst.filter fun c => c.connection_id != cid).isEmpty = true
      · rw [if_pos he, keys_alErase]
        exact hnd.filter _
      · rw [if_neg he, keys_alSet, if_pos (by simp [hgu])]
        exact hnd
  · rw [disconnect_ac]
    cases hgu : alGet m.active_connections u with
    | none => exact hne
    | some lst =>
      dsimp only
      by_cases he : (lst.filter fun c => c.connection_id != cid).isEmpty = true
      · rw [if_pos he]
        intro p hp
        exact hne p (mem_alErase.1 hp).1
      · rw [if_neg he]
        intro p hp
        rcases mem_alSet_nodup hnd hp with h0 | h0
        · rw [h0]
          simpa using he
        · exact hne p h0.1

theorem usersNonempty_fold_disconnect (st : ConnectionManager)
    (h : usersNonempty st) (u : String) (S : List String) :
    usersNonempty (S.foldl (fun st cid => (st.disconnect u cid).2) st) := by
  induction S generalizing st with
  | nil => exact h
  | cons cid S' ih =>
    simp only [List.foldl_cons]
    exact ih _ (usersNonempty_disconnect st h u cid)

theorem usersNonempty_send_to_user (m : ConnectionManager) (h : usersNonempty m)
    (u : String) (ex : Option String) (fails : String → Bool) :
    usersNonempty (m.send_to_user u ex fails).2 := by
  unfold ConnectionManager.send_to_user
  cases hgu : alGet m.active_connections u with
  | none => exact h
  | some conns =>
    dsimp only
    refine usersNonempty_fold_disconnect _ ?_ u _
    exact ⟨h.1, h.2.1, h.2.2⟩

theorem usersNonempty_fold_sweep (st : ConnectionManager) (h : usersNonempty st)
    (S : List String) :
    usersNonempty (S.foldl (fun st cid =>
      match alGet st.connection_map cid with
      | some c => (st.disconnect c.user_id cid).2
      | none => st) st) := by
  induction S generalizing st with
  | nil => exact h
  | cons cid S' ih =>
    simp only [List.foldl_cons]
    refine ih _ ?_
    cases hg : alGet st.connection_map cid with
    | none => exact h
    | some c =>
      dsimp only
      exact usersNonempty_disconnect st h c.user_id cid

theorem usersNonempty_update_heartbeat (m : ConnectionManager)
    (h : usersNonempty m) (cid : String) (now : Nat) :
    usersNonempty (m.update_heartbeat cid now) := by
  unfold ConnectionManager.update_heartbeat
  cases hg : alGet m.connection_map cid with
  | none => exact h
  | some c =>
    dsimp only
    refine ⟨h.1, ?_, ?_⟩
    · rw [List.map_map]
      exact h.2.1
    · intro p' hp'
      obtain ⟨p, hp0, rfl⟩ := List.mem_map.1 hp'
      dsimp only
      intro hnil
      exact h.2.2 p hp0 (List.map_eq_nil_iff.1 hnil)

theorem usersNonempty_reachableOk (m : ConnectionManager) (h : ReachableOk m) :
    usersNonempty m := by
  induction h with
  | init =>
    exact ⟨rfl, by simp [ConnectionManager.init], by simp [ConnectionManager.init]⟩
  | connect u cid ip now hm ih => exact usersNonempty_connect _ ih u cid ip now
  | disconnect u cid hm ih => exact usersNonempty_disconnect _ ih u cid
  | send_to_user u ex fails hm ih => exact usersNonempty_send_to_user _ ih u ex fails
  | update_heartbeat cid now hm ih => exact usersNonempty_update_heartbeat _ ih cid now
  | cleanup_sweep now hm ih => exact usersNonempty_fold_sweep _ ih _

/-- C10 counterexample: `connect` for a previously unknown user whose
`accept` raises leaves the defaultdict-created key mapped to the empty list
in a reachable state, and `total_users_connected` then counts a user with no
live connection. -/
theorem C10_counterexample :
    Reachable (ConnectionManager.init.connect "ghost" "c0" "ip" 0 false).state ∧
    alGet (ConnectionManager.init.connect "ghost" "c0" "ip" 0 false).state.active_connections
      "ghost" = some [] ∧
    (ConnectionManager.init.connect "ghost" "c0" "ip" 0 false).state.total_users_connected
      = 1 ∧
    ((ConnectionManager.init.connect "ghost" "c0" "ip" 0 false).state.active_connections.filter
      fun p => !p.2.isEmpty).length = 0 :=
  ⟨Reachable.connect "ghost" "c0" "ip" 0 false Reachable.init rfl,
   by decide, by decide, by decide⟩

/-- C10 (amended): in every state reachable by operations whose transport
accept succeeds, every present user key holds at least one session (the key
is deleted together with the last session), and `total_users_connected`
equals the number of users holding at least one live connection.  A
`connect` whose accept raises for a previously unknown user breaks the
original claim (see the counterexample): the capacity check's defaultdict
lookup inserts an empty list that survives the exception handler. -/
theorem C10_stats_users (m : ConnectionManager) (h : ReachableOk m) :
    (∀ u l, alGet m.active_connections u = some l → l ≠ []) ∧
    m.total_users_connected =
      (m.active_connections.filter fun p => !p.2.isEmpty).length := by
  obtain ⟨hmax, hnd, hne⟩ := usersNonempty_reachableOk m h
  constructor
  · intro u l hl
    exact hne _ (alGet_mem hl)
  · show m.active_connections.length = _
    rw [List.filter_eq_self.2 (fun p hp => by simpa using hne p hp)]

/-- C10 witness: one successful connect, stats agree. -/
theorem C10_witness :
    (ConnectionManager.init.connect "u" "c1" "ip" 0 true).state.total_users_connected =
      ((ConnectionManager.init.connect "u" "c1" "ip" 0 true).state.active_connections.filter
        fun p => !p.2.isEmpty).length :=
  (C10_stats_users _ (ReachableOk.connect "u" "c1" "ip" 0 ReachableOk.init)).2

end Todo
